import Mathlib

/-!
Verification development for the fabric-token-sdk confidential-token core.

The Go source is embedded shallowly:

* machine integers are modelled as `Nat`/`Int` (the Go code under study never
  overflows `int64` on the inputs considered, except where noted);
* the BN256 scalar field `bn256.Zr` is `ZMod r` for a parameter `r`
  (the curve order), and the cyclic groups `bn256.G1`/`bn256.G2` are modelled
  by their discrete logarithms, i.e. also by `ZMod r`, with `Add` on group
  elements becoming `+` and `Mul` by a scalar becoming `*`;
* Go's `float64` computations done via `math.Pow` on integer arguments are
  modelled exactly: every intermediate value is an integer, and each float64
  multiplication is a correctly-rounded (round-to-nearest, ties-to-even,
  53-bit significand) product, which `fl53` implements on `Nat`;
* fallible Go functions return `Except`/`Option`; a Go `panic`
  (index out of range, nil dereference) is a distinguished error value.
-/

namespace GoFloat

/-- Fuel-driven bit length: `bitlenF f n` is the number of binary digits of
`n`, provided `n ≤ f`. Structural recursion on the fuel keeps it
kernel-reducible. -/
def bitlenF : Nat → Nat → Nat
  | 0, _ => 0
  | f + 1, n => if n = 0 then 0 else bitlenF f (n / 2) + 1

/-- Number of binary digits of `n` (0 for 0). -/
def bitlen (n : Nat) : Nat := bitlenF n n

/-- Round a natural number to the nearest float64-representable value:
round-to-nearest with ties-to-even on a 53-bit significand. Numbers below
`2^53` are exactly representable. This models the value of a correctly
rounded IEEE-754 double operation whose exact result is the integer `n`
(no overflow occurs in the ranges used here). -/
def fl53 (n : Nat) : Nat :=
  if n < 2 ^ 53 then n
  else if 2 ^ (bitlen n - 53) / 2 < n % 2 ^ (bitlen n - 53) ∨
      (n % 2 ^ (bitlen n - 53) = 2 ^ (bitlen n - 53) / 2 ∧
        n / 2 ^ (bitlen n - 53) % 2 = 1) then
    (n / 2 ^ (bitlen n - 53) + 1) * 2 ^ (bitlen n - 53)
  else n / 2 ^ (bitlen n - 53) * 2 ^ (bitlen n - 53)

/-- Go's `math.Pow(x, y)` for a nonnegative integer exponent: binary
exponentiation processing the bits of `y` least-significant first, with a
correctly rounded float64 multiplication at each step (this is the repeated
squaring loop of `math/pow.go`; the mantissa/exponent normalisation there is
exact and does not affect rounding). Fuel `f ≥ y` suffices since `y` halves
each step. -/
def powLoopF : Nat → Nat → Nat → Nat → Nat
  | 0, _, a, _ => a
  | f + 1, y, a, x =>
    if y = 0 then a
    else powLoopF f (y / 2) (if y % 2 = 1 then fl53 (a * x) else a) (fl53 (x * x))

/-- The value of Go's `math.Pow(float64(b), float64(e))` for naturals
`b`, `e` (with `b` small enough that `float64(b)` is exact, as in all the
uses below). -/
def goPow (b e : Nat) : Nat := powLoopF e e 1 b

/-- The digit-filling loop of `Prover.computeMembershipWitness`
(part_000, lines 202-206): for `i = 0 .. E-2` the Go code sets
`values[E-1-i] = v / int64(math.Pow(Base, E-1-i))` and then reduces
`v %= int64(math.Pow(Base, E-1-i))`. `digitsHighF B j v` returns the
digits for positions `j, j-1, …, 1` (in that order) together with the
final reduced `v`. -/
def digitsHighF (B : Nat) : Nat → Nat → List Nat × Nat
  | 0, v => ([], v)
  | j + 1, v =>
    let d := v / goPow B (j + 1)
    let rest := digitsHighF B j (v % goPow B (j + 1))
    (d :: rest.1, rest.2)

/-- The full digit vector computed by `Prover.computeMembershipWitness`
for a token value `v`: `values[0] = v % Base` (computed from the original
`v`, part_000 line 202), `values[E-1] … values[1]` by the loop. The result
lists `values[0], values[1], …, values[E-1]`, i.e. least-significant
first; it is only reached when `E ≥ 1` (for `E = 0` the Go code panics on
`values[0]`). -/
def goDigits (B E v : Nat) : List Nat :=
  (v % B) :: (digitsHighF B (E - 1) v).1.reverse

end GoFloat

namespace Translator

/-- Byte strings (Go `[]byte`), as lists of byte values. -/
abbrev Bytes := List Nat

/-- Ledger keys. The Go code derives them through the `vault/keys` package
(`CreateTokenKey(txID, index)`, `CreateTokenRequestKey(txID)`,
`CreateSetupKey()`), which is outside the embedded sources; per the spec
(§6) derivation is deterministic and collision-free, which the separate
constructors of this inductive give for free. -/
inductive Key
  | token (txID : String) (index : Nat)
  | tokenRequest (txID : String)
  | setup
  deriving DecidableEq

/-- Metadata maps written via `SetStateMetadata`; `none` models a Go `nil`
map (as passed by `spendTokens`). -/
abbrev MetaVal := Option (List (String × String))

/-- The RWSet consumed by the Translator (namespace fixed and dropped):
a value store and a metadata store. `GetState` returning `nil` is `none`. -/
structure RWSet where
  state : Key → Option Bytes
  metadata : Key → Option MetaVal

def RWSet.getState (s : RWSet) (k : Key) : Option Bytes := s.state k

def RWSet.setState (s : RWSet) (k : Key) (v : Bytes) : RWSet :=
  { s with state := fun k' => if k' = k then some v else s.state k' }

def RWSet.deleteState (s : RWSet) (k : Key) : RWSet :=
  { s with state := fun k' => if k' = k then none else s.state k' }

def RWSet.setStateMetadata (s : RWSet) (k : Key) (m : MetaVal) : RWSet :=
  { s with metadata := fun k' => if k' = k then some m else s.metadata k' }

/-- `keys.Action` metadata key and the `keys.ActionIssue` /
`keys.ActionTransfer` tags (opaque distinct constants of `vault/keys`). -/
def keysAction : String := "action"

def keysActionIssue : String := "issue"

def keysActionTransfer : String := "transfer"

/-- `strconv.FormatBool(true)`, the nullifier marker written by
`spendTokens` in graph-hiding mode ("true", a non-empty byte string). -/
def trueMarker : Bytes := [116, 114, 117, 101]

/-- `translator.Translator` (provider.go): issuing policy, RWSet, anchor
txID and the running output counter. The issuing validator collaborator is
a boolean predicate on (issuer, token type). -/
structure Translator where
  issuingValidator : Bytes → String → Bool
  rwSet : RWSet
  txID : String
  counter : Nat

/-- `IssueAction` as consumed by the Translator: an issuer identity and the
serialized outputs (`GetSerializedOutputs`). -/
structure IssueAction where
  issuer : Bytes
  outputs : List Bytes

/-- One transfer output: its redeemed flag (`IsRedeemAt`) and serialized
bytes (`SerializeOutputAt`). -/
structure TransferOutput where
  redeem : Bool
  bytes : Bytes

/-- `TransferAction` as consumed by the Translator: input keys
(`GetInputs`), outputs, and the graph-hiding flag. -/
structure TransferAction where
  inputs : List Key
  outputs : List TransferOutput
  graphHiding : Bool

/-- `SetupAction`: the serialized setup parameters. -/
structure SetupAction where
  params : Bytes

/-- The action kinds dispatched over by `checkAction` / `commitAction`. -/
inductive TokenAction
  | issue (a : IssueAction)
  | transfer (a : TransferAction)
  | setup (a : SetupAction)

/-- `Translator.checkTokenDoesNotExist`: the key `(txID, index)` must hold
no (non-empty) value. `none` is a check failure message. -/
def checkTokenDoesNotExist (w : Translator) (index : Nat) : Option String :=
  if ((w.rwSet.getState (Key.token w.txID index)).getD []).length ≠ 0 then
    some "token already exists"
  else none

/-- The output loop of `checkIssue`/`checkTransfer`: check indices
`start, start+1, …` for each listed output, skipping those for which
`skip` holds (redeemed outputs) but still advancing the index. -/
def checkOutputKeys (w : Translator) : Nat → List Bool → Option String
  | _, [] => none
  | start, skip :: rest =>
    match if skip then none else checkTokenDoesNotExist w start with
    | some e => some e
    | none => checkOutputKeys w (start + 1) rest

/-- `Translator.checkIssue`: issue policy, then freshness of each output
key `(txID, counter + i)`. -/
def checkIssue (w : Translator) (a : IssueAction) : Option String :=
  if w.issuingValidator a.issuer "" then
    checkOutputKeys w w.counter (a.outputs.map fun _ => false)
  else some "invalid issue: verification of issue policy failed"

/-- The input loop of `checkTransfer`: in non-graph-hiding mode every input
key must currently hold a non-empty value; in graph-hiding mode every input
(nullifier) key must hold no value. -/
def checkTransferInputs (s : RWSet) (gh : Bool) : List Key → Option String
  | [] => none
  | k :: rest =>
    if gh then
      if ((s.getState k).getD []).length ≠ 0 then
        some "invalid transfer: input is already spent"
      else checkTransferInputs s gh rest
    else
      if ((s.getState k).getD []).length = 0 then
        some "invalid transfer: input is already spent"
      else checkTransferInputs s gh rest

/-- `Translator.checkTransfer`: input preconditions, then freshness of the
non-redeemed output keys. -/
def checkTransfer (w : Translator) (t : TransferAction) : Option String :=
  match checkTransferInputs w.rwSet t.graphHiding t.inputs with
  | some e => some e
  | none => checkOutputKeys w w.counter (t.outputs.map fun o => o.redeem)

/-- `Translator.checkAction`: dispatch on the action kind. A
`SetupAction` is accepted unconditionally. -/
def checkAction (w : Translator) : TokenAction → Option String
  | .issue a => checkIssue w a
  | .transfer t => checkTransfer w t
  | .setup _ => none

/-- `Translator.commitSetupAction`: unconditionally overwrite the setup
key with the action's payload. -/
def commitSetupAction (w : Translator) (a : SetupAction) : Translator :=
  { w with rwSet := w.rwSet.setState Key.setup a.params }

/-- The output loop of `commitIssueAction`: write output `i` under
`(txID, start + i)` and tag it with the issue action metadata. -/
def writeIssueOutputs (rw : RWSet) (txID : String) : Nat → List Bytes → RWSet
  | _, [] => rw
  | start, b :: rest =>
    writeIssueOutputs
      (((rw.setState (Key.token txID start) b)).setStateMetadata
        (Key.token txID start) (some [(keysAction, keysActionIssue)]))
      txID (start + 1) rest

/-- `Translator.commitIssueAction`: write all outputs starting at the
current counter, then advance the counter by the output count. -/
def commitIssueAction (w : Translator) (a : IssueAction) : Translator :=
  { w with
    rwSet := writeIssueOutputs w.rwSet w.txID w.counter a.outputs
    counter := w.counter + a.outputs.length }

/-- The output loop of `commitTransferAction`: write output `i` under
`(txID, start + i)` unless it is redeemed (the index advances either way),
tagging written outputs with the transfer action metadata. -/
def writeTransferOutputs (rw : RWSet) (txID : String) : Nat → List TransferOutput → RWSet
  | _, [] => rw
  | start, o :: rest =>
    writeTransferOutputs
      (if o.redeem then rw
       else
        ((rw.setState (Key.token txID start) o.bytes)).setStateMetadata
          (Key.token txID start) (some [(keysAction, keysActionTransfer)]))
      txID (start + 1) rest

/-- `Translator.spendTokens`: delete each input key and clear its metadata
(non-graph-hiding), or write the nullifier marker under it (graph-hiding). -/
def spendTokens (rw : RWSet) (gh : Bool) : List Key → RWSet
  | [] => rw
  | k :: rest =>
    if ¬gh then
      spendTokens ((rw.deleteState k).setStateMetadata k none) gh rest
    else
      spendTokens (rw.setState k trueMarker) gh rest

/-- `Translator.commitTransferAction`: write the non-redeemed outputs,
spend the inputs, and advance the counter by the full output count
(including redeemed outputs, for which no key was written). -/
def commitTransferAction (w : Translator) (t : TransferAction) : Translator :=
  { w with
    rwSet := spendTokens (writeTransferOutputs w.rwSet w.txID w.counter t.outputs)
      t.graphHiding t.inputs
    counter := w.counter + t.outputs.length }

/-- `Translator.commitAction`: dispatch on the action kind. -/
def commitAction (w : Translator) : TokenAction → Translator
  | .issue a => commitIssueAction w a
  | .transfer t => commitTransferAction w t
  | .setup a => commitSetupAction w a

/-- `Translator.Write`: check the action against the current state and, if
the check passes, commit it. The returned pair is (state after the call,
error); on a check failure no commit happens and the state is unchanged. -/
def Write (w : Translator) (a : TokenAction) : Translator × Option String :=
  match checkAction w a with
  | some e => (w, some e)
  | none => (commitAction w a, none)

/-- `Translator.CommitTokenRequest`: store the raw request bytes under the
anchor-derived token-request key, failing (with no write) if a value is
already stored there. -/
def CommitTokenRequest (w : Translator) (raw : Bytes) : Translator × Option String :=
  match w.rwSet.getState (Key.tokenRequest w.txID) with
  | some _ => (w, some "token request with same ID already exists")
  | none => ({ w with rwSet := w.rwSet.setState (Key.tokenRequest w.txID) raw }, none)

/-- A key is in "consumed" state: in non-graph-hiding mode it holds no
(non-empty) value; in graph-hiding mode its (nullifier) key holds a
non-empty value. This is exactly the state in which `checkTransfer`
rejects the key as an input. -/
def spent (s : RWSet) (gh : Bool) (k : Key) : Bool :=
  if gh then ((s.state k).getD []).length != 0
  else ((s.state k).getD []).length == 0

/-- The keys an action writes as fresh outputs (or the setup key), computed
at the state in which the action commits. -/
def outputKeys (w : Translator) : TokenAction → List Key
  | .issue a => (List.range a.outputs.length).map fun i => Key.token w.txID (w.counter + i)
  | .transfer t => (List.range t.outputs.length).map fun i => Key.token w.txID (w.counter + i)
  | .setup _ => [Key.setup]

/-- Apply a sequence of `Write` calls (failed checks leave the state
unchanged, as in the Go code). -/
def applyWrites (w : Translator) : List TokenAction → Translator
  | [] => w
  | a :: rest => applyWrites (Write w a).1 rest

/-- Key-derivation freshness along a sequence of writes: at each step the
action's derived output keys avoid `k` (guaranteed in the real system by
the collision-free key derivation of §6, since later actions commit under
fresh anchors). -/
def freshAlong (w : Translator) (k : Key) : List TokenAction → Bool
  | [] => true
  | a :: rest =>
    if k ∈ outputKeys w a then false else freshAlong (Write w a).1 k rest

/-- All transfer actions in the list run in the given graph-hiding mode
(the mode is a fixed public-parameters property of the ledger). -/
def modesAlong (gh : Bool) : List TokenAction → Bool
  | [] => true
  | .transfer t :: rest => (t.graphHiding == gh) && modesAlong gh rest
  | _ :: rest => modesAlong gh rest

/-- A ledger holding exactly one unspent token, at key ("a", 0). -/
def sampleTranslator : Translator :=
  { issuingValidator := fun _ _ => true
    rwSet :=
      { state := fun k => if k = Key.token "a" 0 then some [1] else none
        metadata := fun _ => none }
    txID := "b"
    counter := 0 }

/-- A transfer consuming the token at ("a", 0), producing one output. -/
def sampleTransfer : TransferAction :=
  { inputs := [Key.token "a" 0]
    outputs := [⟨false, [7]⟩]
    graphHiding := false }

/-- An unrelated issue action committed after the transfer. -/
def sampleLaterActs : List TokenAction := [TokenAction.issue ⟨[2], [[9]]⟩]

/-- A transfer with a redeemed first output and a kept second output. -/
def sampleRedeemTransfer : TransferAction :=
  { inputs := [Key.token "a" 0]
    outputs := [⟨true, []⟩, ⟨false, [5]⟩]
    graphHiding := false }

end Translator

namespace TokenRequest

/-- `token2.Id`: a token identifier (txID, output index). -/
structure Id where
  txId : String
  index : Nat
  deriving DecidableEq

/-- A token as returned by the vault query engine (`token2.Token`): its type
and quantity. The Go quantity is a decimal string parsed with
`token2.ToQuantity(·, 65)`; quantities written by this SDK always parse, so
the model carries the parsed number directly. -/
structure Tok where
  typ : String
  quantity : Nat
  deriving DecidableEq

/-- An owner identity (raw bytes); `none` models a nil `view.Identity`
(`IsNone`). -/
abbrev Identity := List Nat

/-- An output token assembled by `prepareTransfer` (`token2.Token` with
`Owner`, `Type`, `Quantity`). -/
structure OutToken where
  owner : Option Identity
  typ : String
  quantity : Nat
  deriving DecidableEq

/-- `errors.WithMessagef(err, …)` of pkg/errors: when `err` is nil the
result is nil — the added message is discarded. This is the semantics the
type-mismatch branch of `parseInputIDs` actually has. -/
def goWithMessage (e : Option String) (m : String) : Option String :=
  e.map fun s => m ++ ": " ++ s

/-- The result quadruple of `Request.parseInputIDs`
`(ids, sum, typ, err)`; `sum = none` models a nil `token2.Quantity`
pointer. -/
structure GoParse where
  ids : List Id
  sum : Option Nat
  typ : String
  err : Option String
  deriving DecidableEq

/-- The accumulation loop of `parseInputIDs` over the fetched tokens:
`typ` is set from the first token, and a later token of a different type
takes the `return nil, nil, "", errors.WithMessagef(err, …)` exit — in
which `err` is nil (the query succeeded), so the returned error is nil
too. `none` here models that exit. -/
def parseLoop : List Tok → String → Nat → Option (String × Nat)
  | [], typ, sum => some (typ, sum)
  | tok :: rest, typ, sum =>
    let typ' := if typ.length = 0 then tok.typ else typ
    if typ' ≠ tok.typ then none
    else parseLoop rest typ' (sum + tok.quantity)

/-- `Request.parseInputIDs` (part_004 lines 772-794): fetch the input
tokens, require one shared type, and sum the quantities. The vault query
engine is the abstract collaborator `getTokens`. -/
def parseInputIDs (getTokens : List Id → Except String (List Tok))
    (inputs : List Id) : GoParse :=
  match getTokens inputs with
  | .error e =>
    { ids := [], sum := none, typ := ""
      err := some ("failed querying tokens ids: " ++ e) }
  | .ok inputTokens =>
    match parseLoop inputTokens "" 0 with
    | none =>
      -- the type-mismatch exit: `errors.WithMessagef(nil, "tokens must have
      -- the same type …")` evaluates to nil, so NO error is reported
      { ids := [], sum := none, typ := "", err := goWithMessage none
          "tokens must have the same type" }
    | some (typ, sum) => { ids := inputs, sum := some sum, typ := typ, err := none }

/-- Errors of the `prepareTransfer` model; `panicNil` is the Go runtime
panic from calling `Cmp` on the nil `inputSum` quantity, `panicIdx` the
panic from `owners[i]` when fewer owners than values are given. -/
inductive PrepError
  | err (msg : String)
  | panicNil
  | panicIdx
  deriving DecidableEq

/-- `Request.prepareTransfer` (part_004 lines 796-875) on the
explicitly-passed-token-ids path (`WithTokenIDs`), with the collaborators
abstracted: `getTokens` (vault query), `certify` (certification client),
`select` (token selector, used only when no ids are passed; it returns
chosen ids and their sum), `recipient` (the wallet's identity for the
rest). Mirrors the Go control flow: recipient checks, parse-and-certify of
passed ids, output assembly, selection, and the rest-output append when the
input sum strictly exceeds the output sum. Note there is no refusal path
for input sum ≠ output sum: a deficit flows through to the caller. -/
def prepareTransfer (getTokens : List Id → Except String (List Tok))
    (certify : List Id → Option String)
    (select : String → Nat → Except String (List Id × Nat))
    (recipient : Except String Identity)
    (redeem : Bool) (typ : String) (values : List Nat)
    (owners : List (Option Identity)) (tokenIDs : List Id) :
    Except PrepError (List Id × List OutToken) :=
  if redeem ∧ owners.any (·.isSome) then .error (.err "all recipients must be nil")
  else if ¬redeem ∧ owners.any (·.isNone) then
    .error (.err "all recipients should be defined")
  else
    -- parse and certify the passed ids, if any
    let parsed : Except PrepError (List Id × Option Nat × String) :=
      if tokenIDs.length ≠ 0 then
        let p := parseInputIDs getTokens tokenIDs
        match p.err with
        | some e => .error (.err ("failed parsing passed input tokens: " ++ e))
        | none =>
          match certify p.ids with
          | some e => .error (.err ("failed certifiying inputs: " ++ e))
          | none => .ok (p.ids, p.sum, p.typ)
      else .ok ([], none, typ)
    match parsed with
    | .error e => .error e
    | .ok (ids0, sum0, typ') =>
      -- output assembly (with the parsed type when ids were passed);
      -- `owners[i]` panics when fewer owners than values are passed
      if values.length > owners.length then .error .panicIdx else
      let outputSum := values.sum
      let outputTokens := (List.range values.length).map fun i =>
        (⟨owners.getD i none, typ', values.getD i 0⟩ : OutToken)
      -- selection when no ids were passed
      let selected : Except PrepError (List Id × Option Nat) :=
        if tokenIDs.length = 0 then
          match select typ' outputSum with
          | .error e => .error (.err ("failed selecting tokens: " ++ e))
          | .ok (ids, sum) => .ok (ids, some sum)
        else .ok (ids0, sum0)
      match selected with
      | .error e => .error e
      | .ok (ids, inputSum) =>
        -- `inputSum.Cmp(qOutputSum)`: nil dereference when inputSum is nil
        match inputSum with
        | none => .error .panicNil
        | some s =>
          if s > outputSum then
            match recipient with
            | .error e =>
              .error (.err ("failed getting recipient identity for the rest: " ++ e))
            | .ok pid =>
              .ok (ids, outputTokens ++ [⟨some pid, typ', s - outputSum⟩])
          else .ok (ids, outputTokens)

/-- Query engine holding two tokens of different types "A" and "B". -/
def getTokensMixed : List Id → Except String (List Tok) :=
  fun _ => .ok [⟨"A", 5⟩, ⟨"B", 5⟩]

/-- Query engine holding two tokens of type "A" with total value 8. -/
def getTokensDeficit : List Id → Except String (List Tok) :=
  fun _ => .ok [⟨"A", 5⟩, ⟨"A", 3⟩]

def certifyOk : List Id → Option String := fun _ => none

def selectNone : String → Nat → Except String (List Id × Nat) :=
  fun _ _ => .error "no tokens selected"

def recipientOk : Except String Identity := .ok [9]

end TokenRequest

namespace Sigma

/-- Modelled from the spec: `common.ComputePedersenCommitment` (crypto/common,
source not under src/). Per §4.1, `Commit(scalars, generators) = Σ
generators[i]^scalars[i]`, failing with a FormatError when the lengths
differ. In the discrete-log model the sum of powers becomes a linear
combination. -/
def pedersenCommit {r : Nat} (scalars gens : List (ZMod r)) : Except String (ZMod r) :=
  if scalars.length ≠ gens.length then .error "format error: number of scalars is different from number of generators"
  else .ok (List.zipWith (· * ·) gens scalars).sum

/-- Modelled from the spec: `common.SchnorrProver.Prove` (crypto/common,
source not under src/). Per §4.1, `response_i = randomness_i +
challenge·witness_i (mod order)`. -/
def schnorrProve {r : Nat} (witness randomness : List (ZMod r)) (challenge : ZMod r) :
    List (ZMod r) :=
  List.zipWith (fun w rho => rho + challenge * w) witness randomness

/-- Modelled from the spec: `common.SchnorrVerifier.RecomputeCommitment`
(crypto/common, source not under src/). Per §4.1, the recomputed first
message is `Σ generators[i]^responses[i] − statement^challenge`. -/
def schnorrRecompute {r : Nat} (gens responses : List (ZMod r))
    (challenge statement : ZMod r) : ZMod r :=
  (List.zipWith (· * ·) gens responses).sum - challenge * statement

end Sigma

namespace SigProof

/-- A Pointcheval-Sanders signature (`pssign.Signature`, source not under
src/): opaque for the purposes of the claims below. -/
structure PSSig where
  raw : Nat
  deriving DecidableEq

/-- `sigproof.SigProof`: the signature-based selective-disclosure proof. -/
structure SigProof (r : Nat) where
  challenge : ZMod r
  hidden : List (ZMod r)
  hash : ZMod r
  signature : PSSig
  sigBlindingFactor : ZMod r
  comBlindingFactor : ZMod r
  commitment : ZMod r

/-- `sigproof.SigVerifier` (with its embedded `POKVerifier` fields `P`,
`Q`, `PK` inlined). Group elements are modelled by their discrete logs. -/
structure SigVerifier (r : Nat) where
  P : ZMod r
  Q : ZMod r
  PK : List (ZMod r)
  hiddenIndices : List Nat
  disclosedIndices : List Nat
  disclosed : List (ZMod r)
  pedersenParams : List (ZMod r)
  commitmentToMessages : ZMod r

/-- `sigproof.SigWitness`. -/
structure SigWitness (r : Nat) where
  hidden : List (ZMod r)
  hash : ZMod r
  signature : PSSig
  comBlindingFactor : ZMod r

/-- `sigproof.SigCommitment`: first message of the sigma protocol; the
pairing-target component is modelled by the discrete log of the GT
element. -/
structure SigCommitment (r : Nat) where
  commitmentToMessages : ZMod r
  signature : ZMod r

/-- The scattered response vector built by `recomputeCommitments`: a slot
per signed message, `none` for a slot never assigned (a nil `*bn256.Zr` in
Go). -/
def scatterResponses {r : Nat} (n : Nat) (hiddenIdx : List Nat)
    (hidden : List (ZMod r)) (disclosedIdx : List Nat) (disclosed : List (ZMod r))
    (challenge : ZMod r) : List (Option (ZMod r)) :=
  let base : List (Option (ZMod r)) := List.replicate n none
  let withHidden := (List.range n).map fun j =>
    match (hiddenIdx.zip hidden).find? (fun p => p.1 = j) with
    | some p => some p.2
    | none => (base.getD j none)
  (List.range n).map fun j =>
    match (disclosedIdx.zip disclosed).find? (fun p => p.1 = j) with
    | some p => some (p.2 * challenge)
    | none => withHidden.getD j none

/-- `SigVerifier.recomputeCommitments` (part_000 lines 494-527). The length
contract `len(p.Hidden) + len(v.Disclosed) = len(v.PK) - 2` is checked
first (in `Int` arithmetic, as Go's `len(v.PK)-2` may be negative); the
pairing recomputation of the POK (`POKVerifier.RecomputeCommitment`,
source not under src/) is the abstract collaborator `pokRecompute`. -/
def recomputeCommitments {r : Nat}
    (pokRecompute : SigProof r → List (Option (ZMod r)) → Except String (ZMod r))
    (v : SigVerifier r) (p : SigProof r) : Except String (SigCommitment r) :=
  if (p.hidden.length : Int) + v.disclosed.length ≠ (v.PK.length : Int) - 2 then
    .error "length of signature public key does not match number of signed messages"
  else
    let com := Sigma.schnorrRecompute v.pedersenParams
      (p.hidden ++ [p.comBlindingFactor]) p.challenge v.commitmentToMessages
    let responses := scatterResponses (v.PK.length - 2) v.hiddenIndices p.hidden
      v.disclosedIndices v.disclosed p.challenge
    match pokRecompute p responses with
    | .error e => .error ("failed to verify signature proof: " ++ e)
    | .ok sigCom => .ok ⟨com, sigCom⟩

/-- The Fiat-Shamir challenge of the signature proof: a hash over the
Pedersen parameters, commitments, `P`, `PK`, `Q`, the GT commitment and
the randomized signature (`SigVerifier.computeChallenge`); abstracted as a
function of that transcript. -/
structure SigChallengeIn (r : Nat) where
  pedersenParams : List (ZMod r)
  comToMessages : ZMod r
  commitment : ZMod r
  P : ZMod r
  PK : List (ZMod r)
  Q : ZMod r
  signatureCommitment : ZMod r
  signature : PSSig

/-- `SigVerifier.Verify` (part_000 lines 530-545), exactly as written: when
`recomputeCommitments` fails, the code executes `return nil` — it ACCEPTS
the proof instead of propagating the error (same for a challenge-computation
failure, not reachable in this model). `none` is acceptance. -/
def SigVerifier.Verify {r : Nat}
    (pokRecompute : SigProof r → List (Option (ZMod r)) → Except String (ZMod r))
    (hash : SigChallengeIn r → ZMod r)
    (v : SigVerifier r) (p : SigProof r) : Option String :=
  match recomputeCommitments pokRecompute v p with
  | .error _ => none
  | .ok com =>
    let chal := hash ⟨v.pedersenParams, p.commitment, com.commitmentToMessages,
      v.P, v.PK, v.Q, com.signature, p.signature⟩
    if chal ≠ p.challenge then some "invalid signature proof" else none

/-- `SigProver.Prove` (part_000 lines 383-421). The witness-size checks come
first; `obfuscateSignature` (randomization of the PS signature) and the
pairing commitment are the abstract collaborators `obfuscate` and
`pairingCommit`; `computeCommitment`'s two length checks then guard the
Pedersen and public-key sizes. The responses follow §4.1. -/
def SigProver.Prove {r : Nat}
    (obfuscate : PSSig → PSSig)
    (pairingCommit : PSSig → ZMod r)
    (hash : SigChallengeIn r → ZMod r)
    (v : SigVerifier r) (w : SigWitness r)
    (randHidden : List (ZMod r)) (randHash randComBF randSigBF : ZMod r) :
    Except String (SigProof r) :=
  if v.hiddenIndices.length ≠ w.hidden.length then
    .error "witness is not of the right size"
  else if v.disclosedIndices.length ≠ v.disclosed.length then
    .error "witness is not of the right size"
  else
    let sig := obfuscate w.signature
    if v.pedersenParams.length ≠ v.hiddenIndices.length + 1 then
      .error "size of witness does not match length of Pedersen Parameters"
    else if v.PK.length ≠ v.hiddenIndices.length + v.disclosedIndices.length + 2 then
      .error "size of signature public key does not mathc the size of the witness"
    else
      let comToMessages := (List.zipWith (· * ·)
        (v.pedersenParams.take w.hidden.length) randHidden).sum
        + v.pedersenParams.getD w.hidden.length 0 * randComBF
      let sigCommitment := pairingCommit sig
      let challenge := hash ⟨v.pedersenParams, v.commitmentToMessages,
        comToMessages, v.P, v.PK, v.Q, sigCommitment, sig⟩
      let proofs := Sigma.schnorrProve
        (w.hidden ++ [w.comBlindingFactor, randSigBF, w.hash])
        (randHidden ++ [randComBF, randSigBF, randHash]) challenge
      .ok { challenge := challenge
            hidden := proofs.take w.hidden.length
            hash := proofs.getD (w.hidden.length + 2) 0
            signature := sig
            sigBlindingFactor := proofs.getD (w.hidden.length + 1) 0
            comBlindingFactor := proofs.getD w.hidden.length 0
            commitment := v.commitmentToMessages }

end SigProof

namespace Anonym

/-- `anonym.Authorization`: the commitment to the issuer's secret key and
type (`Type`), and one issued token's commitment (`Token`). -/
structure Authorization (r : Nat) where
  typ : ZMod r
  token : ZMod r

/-- `anonym.Signature`: the two serialized sub-proofs. -/
structure Signature where
  authorizationCorrectness : List Nat
  typeCorrectness : List Nat

/-- `anonym.Verifier`. -/
structure Verifier (r : Nat) where
  pedersenParams : List (ZMod r)
  issuers : List (ZMod r)
  auth : Authorization r
  bitLength : Nat

/-- `anonym.Verifier.Verify` (part_002 lines 186-211). `rawsig` is the
deserialization result (`none` = `json.Unmarshal` failure). The
one-out-of-many verifier (`o2omp.NewVerifier(…).Verify`) and the
type-correctness verifier (`NewTypeCorrectnessVerifier(…).Verify`) are the
abstract collaborators `o2ompVerify` and `tcVerify` (their sources are not
under src/); `none` from either is acceptance. The difference commitments
`Auth.Type − Issuers[k]` are built exactly as in the source, and the
one-out-of-many generators are `pedersenParams[0]` and
`pedersenParams[2]`. -/
def Verifier.Verify {r : Nat}
    (o2ompVerify : List (ZMod r) → List Nat → List (ZMod r) → Nat → List Nat →
      Option String)
    (tcVerify : ZMod r → ZMod r → List Nat → List (ZMod r) → List Nat →
      Option String)
    (v : Verifier r) (message : List Nat) (rawsig : Option Signature) :
    Option String :=
  if v.pedersenParams.length ≠ 3 then some "length of Pedersen parameters != 3"
  else
    match rawsig with
    | none => some "failed to unmarshal issuer's signature"
    | some sig =>
      let commitments := v.issuers.map fun i => v.auth.typ - i
      match o2ompVerify commitments message
          [v.pedersenParams.getD 0 0, v.pedersenParams.getD 2 0] v.bitLength
          sig.authorizationCorrectness with
      | some e => some ("failed to verify issuer's pseudonym: " ++ e)
      | none =>
        tcVerify v.auth.typ v.auth.token message v.pedersenParams
          sig.typeCorrectness

end Anonym

namespace RangeProof

open GoFloat

/-- `token.TokenDataWitness`: the secret opening of one token. `value` is
the integer the `bn256.Zr` holds (the prover reads it back with
`.Int64()`, exact for the token values in scope). -/
structure TokenDataWitness (r : Nat) where
  ttype : String
  value : Nat
  blindingFactor : ZMod r

/-- The membership-proof bytes produced by
`sigproof.NewMembershipProver(…).Prove()` for one digit. Modelled from the
spec: the membership prover/verifier sources are not under src/; per §4.3
step 3 the proof shows knowledge of a pre-issued Pointcheval-Sanders
signature on the committed digit. Extensionally the model's proof carries
the signature (modelled by the value it signs), the digit and the
commitment blinding; the verifier checks the commitment opening and the
signature's validity for the digit. -/
structure MembershipProofBytes (r : Nat) where
  sig : Nat
  digit : Nat
  bf : ZMod r
  deriving DecidableEq

/-- Modelled from the spec: `sigproof.NewMembershipVerifier(…).Verify` for
one digit commitment, over the two Pedersen generators `pp[:2]`: the
commitment must open to the proof's digit and blinding, and the signature
must be valid for that digit (the authority's signature on `d` is modelled
by `d` itself). -/
def membershipVerify {r : Nat} (pp0 pp1 : ZMod r) (com : ZMod r)
    (pr : MembershipProofBytes r) : Bool :=
  decide (com = (pr.digit : ZMod r) * pp0 + pr.bf * pp1 ∧ pr.sig = pr.digit)

/-- `rangeproof.MembershipProof`. -/
structure MembershipProof (r : Nat) where
  commitments : List (ZMod r)
  signatureProofs : List (MembershipProofBytes r)
  deriving DecidableEq

/-- `rangeproof.EqualityProofs` (the `Type` field is `typeResp` here). -/
structure EqualityProofs (r : Nat) where
  typeResp : ZMod r
  value : List (ZMod r)
  tokenBlindingFactor : List (ZMod r)
  commitmentBlindingFactor : List (ZMod r)
  deriving DecidableEq

/-- `rangeproof.Proof` (its JSON serialization is modelled by the structure
itself; `Prove` returns these "bytes" and `Verify` consumes them). -/
structure Proof (r : Nat) where
  challenge : ZMod r
  equalityProofs : EqualityProofs r
  membershipProofs : List (MembershipProof r)
  deriving DecidableEq

/-- `rangeproof.Verifier`: the public statement. Group elements are
discrete logs in `ZMod r`. -/
structure Verifier (r : Nat) where
  Token : List (ZMod r)
  Base : Nat
  Exponent : Nat
  PedersenParams : List (ZMod r)
  Q : ZMod r
  P : ZMod r
  PK : List (ZMod r)

/-- `rangeproof.Commitment`: the sigma-protocol first messages. -/
structure Commitment (r : Nat) where
  token : List (ZMod r)
  commitmentToValue : List (ZMod r)

/-- The transcript hashed by `Verifier.computeChallenge` (part_000 lines
257-266): `P`, the tokens, both commitment vectors, the Pedersen
parameters, `Q`, `PK`, then every digit-commitment vector. The SHA-256
hash-to-scalar is an abstract function of this transcript. -/
structure ChallengeIn (r : Nat) where
  P : ZMod r
  token : List (ZMod r)
  comToken : List (ZMod r)
  comToValue : List (ZMod r)
  pedersenParams : List (ZMod r)
  Q : ZMod r
  PK : List (ZMod r)
  digitComs : List (List (ZMod r))

/-- The randomness sampled during `Prove`: per-digit commitment blindings
(`bf` in `computeMembershipWitness`) and the sigma-protocol randomness of
`computeCommitment`, indexed by token position. -/
structure ProveRandom (r : Nat) where
  digitBF : Nat → Nat → ZMod r
  rType : ZMod r
  rValue : Nat → ZMod r
  rTokenBF : Nat → ZMod r
  rComBF : Nat → ZMod r

/-- Failures of `Prove`. `rangeViolation` is the explicit "value of token
outside authorized range" error; `goPanic` models the Go runtime panics the
function can hit instead of returning an error: `values[0]` with
`Exponent = 0`, `v % int64(Base)` with `Base = 0` (len(signatures) = 0),
`p.Signatures[digit]` with a digit out of the signature table,
`PedersenParams[2]`/`[:2]` with fewer than 3 parameters,
`coms[k][i]`/`tokenWitness[0]` with too few witnesses. -/
inductive ProveError
  | rangeViolation
  | goPanic
  deriving DecidableEq

/-- The per-token data `Prover.computeMembershipWitness` produces: the digit
commitments, the digit membership witnesses (as the proofs they serialize
to), and the accumulated commitment blinding factor
`Σ bf_i · int(math.Pow(Base, i))`. -/
structure MemberData (r : Nat) where
  coms : List (ZMod r)
  proofs : List (MembershipProofBytes r)
  comBF : ZMod r

/-- The default `MemberData` (never read on the in-range paths). -/
def MemberData.empty (r : Nat) : MemberData r := ⟨[], [], 0⟩

/-- The data computed for witness `w` at token position `k`:
digits by the float64 division/modulo loop (`goDigits`), commitments
`digit·pp0 + bf·pp1`, membership witnesses over `Signatures[digit]`, and
`comBF = Σ bf_i · int(math.Pow(Base, i))`. -/
def memEntry {r : Nat} (B E : Nat) (signatures : List Nat) (pp0 pp1 : ZMod r)
    (digitBF : Nat → Nat → ZMod r) (k : Nat) (w : TokenDataWitness r) :
    MemberData r :=
  let digits := goDigits B E w.value
  { coms := (List.range E).map fun i =>
      ((digits.getD i 0 : Nat) : ZMod r) * pp0 + digitBF k i * pp1
    proofs := (List.range E).map fun i =>
      ⟨signatures.getD (digits.getD i 0) 0, digits.getD i 0, digitBF k i⟩
    comBF := ((List.range E).map fun i =>
      digitBF k i * ((goPow B i : Nat) : ZMod r)).sum }

/-- `Prover.computeMembershipWitness` (part_000 lines 187-224), one token at
a time in order. For each witness: the range gate
`v >= int64(math.Pow(float64(Base), float64(Exponent)))` refuses with the
range error; a digit outside the signature table is the
`p.Signatures[values[i]]` index panic; otherwise the token's `MemberData`
is produced. `B` is `p.Base = uint64(len(signatures))`. -/
def computeMembershipWitness {r : Nat} (B E : Nat) (signatures : List Nat)
    (pp0 pp1 : ZMod r) (digitBF : Nat → Nat → ZMod r) :
    Nat → List (TokenDataWitness r) → Except ProveError (List (MemberData r))
  | _, [] => .ok []
  | k, w :: rest =>
    if goPow B E ≤ w.value then .error .rangeViolation
    else if ¬ (goDigits B E w.value).all (· < signatures.length) then
      .error .goPanic
    else
      match computeMembershipWitness B E signatures pp0 pp1 digitBF (k + 1) rest with
      | .error e => .error e
      | .ok tail => .ok (memEntry B E signatures pp0 pp1 digitBF k w :: tail)

/-- The default witness (never read on the in-range paths). -/
def TokenDataWitness.empty (r : Nat) : TokenDataWitness r := ⟨"", 0, 0⟩

/-- `Prover.Prove` (part_000 lines 100-146) as a pure function of the
witnesses, the membership signature table, the public statement and the
sampled randomness, with the two hash-to-scalar functions abstracted
(`hash` is the SHA-256 transcript hash of `computeChallenge`, `hashType`
is `bn256.HashModOrder` on the token type). Steps, as in the source:
`computeMembershipWitness`; the membership proofs per token and digit;
`computeCommitment` (the sigma first messages under the sampled
randomness); the Fiat-Shamir challenge over the full transcript; the
Schnorr equality responses (§4.1: `randomness + challenge·witness`) and
the type response `challenge·H(type₀) + r_type` computed from
`tokenWitness[0]`. Go panics are the explicit `goPanic` error (see
`ProveError`). -/
def Prove {r : Nat} (hash : ChallengeIn r → ZMod r) (hashType : String → ZMod r)
    (tw : List (TokenDataWitness r)) (signatures : List Nat)
    (v : Verifier r) (rand : ProveRandom r) : Except ProveError (Proof r) :=
  if v.Exponent = 0 ∨ signatures.length = 0 ∨ v.PedersenParams.length < 3
      ∨ tw.length < v.Token.length ∨ tw.length = 0 then .error .goPanic
  else
    match computeMembershipWitness signatures.length v.Exponent signatures
        (v.PedersenParams.getD 0 0) (v.PedersenParams.getD 1 0) rand.digitBF 0 tw with
    | .error e => .error e
    | .ok mem =>
      let n := v.Token.length
      let membershipProofs := (List.range n).map fun k =>
        ({ commitments := (mem.getD k (MemberData.empty r)).coms
           signatureProofs := (mem.getD k (MemberData.empty r)).proofs } :
          MembershipProof r)
      let commitment : Commitment r :=
        { token := (List.range n).map fun i =>
            v.PedersenParams.getD 0 0 * rand.rType + v.PedersenParams.getD 1 0 * rand.rValue i
              + v.PedersenParams.getD 2 0 * rand.rTokenBF i
          commitmentToValue := (List.range n).map fun i =>
            v.PedersenParams.getD 0 0 * rand.rValue i + v.PedersenParams.getD 1 0 * rand.rComBF i }
      let challenge := hash ⟨v.P, v.Token, commitment.token,
        commitment.commitmentToValue, v.PedersenParams, v.Q, v.PK,
        mem.map (·.coms)⟩
      .ok
        { challenge := challenge
          equalityProofs :=
            { typeResp := challenge * hashType ((tw.getD 0 (TokenDataWitness.empty r)).ttype)
                + rand.rType
              value := (List.range n).map fun k =>
                rand.rValue k + challenge * ((tw.getD k (TokenDataWitness.empty r)).value : ZMod r)
              tokenBlindingFactor := (List.range n).map fun k =>
                rand.rTokenBF k + challenge * (tw.getD k (TokenDataWitness.empty r)).blindingFactor
              commitmentBlindingFactor := (List.range n).map fun k =>
                rand.rComBF k + challenge * (mem.getD k (MemberData.empty r)).comBF }
          membershipProofs := membershipProofs }

/-- `Verifier.recomputeCommitments` (part_000 lines 268-290): per token
`j`, the Schnorr recomputation `Σ generators·responses − challenge·statement`
over the three Pedersen generators with responses
`(Type, Value[j], TokenBlindingFactor[j])` and statement `Token[j]`; and
over the first two generators with responses
`(Value[j], CommitmentBlindingFactor[j])` against the weighted digit
commitment `Σ Commitments[j][i] · int(math.Pow(Base, i))`. -/
def recomputeCommitments {r : Nat} (v : Verifier r) (p : Proof r) : Commitment r :=
  { token := (List.range v.Token.length).map fun j =>
      v.PedersenParams.getD 0 0 * p.equalityProofs.typeResp
        + v.PedersenParams.getD 1 0 * (p.equalityProofs.value.getD j 0)
        + v.PedersenParams.getD 2 0 * (p.equalityProofs.tokenBlindingFactor.getD j 0)
        - p.challenge * (v.Token.getD j 0)
    commitmentToValue := (List.range v.Token.length).map fun j =>
      v.PedersenParams.getD 0 0 * (p.equalityProofs.value.getD j 0)
        + v.PedersenParams.getD 1 0 * (p.equalityProofs.commitmentBlindingFactor.getD j 0)
        - p.challenge * ((List.range v.Exponent).map fun i =>
            ((goPow v.Base i : Nat) : ZMod r) *
              ((p.membershipProofs.getD j ⟨[], []⟩).commitments.getD i 0)).sum }

/-- `Verifier.Verify` (part_000 lines 148-186): length checks, every digit
membership proof, then the recomputed transcript challenge must equal the
proof's challenge. `true` is acceptance. -/
def Verify {r : Nat} (hash : ChallengeIn r → ZMod r) (v : Verifier r)
    (p : Proof r) : Bool :=
  if p.membershipProofs.length ≠ v.Token.length then false
  else if ¬ p.membershipProofs.all fun mp =>
      mp.commitments.length = mp.signatureProofs.length then false
  else if ¬ p.membershipProofs.all fun mp =>
      (mp.commitments.zip mp.signatureProofs).all fun ci =>
        membershipVerify (v.PedersenParams.getD 0 0) (v.PedersenParams.getD 1 0)
          ci.1 ci.2 then false
  else
    decide (hash ⟨v.P, v.Token, (recomputeCommitments v p).token,
      (recomputeCommitments v p).commitmentToValue,
      v.PedersenParams, v.Q, v.PK, p.membershipProofs.map (·.commitments)⟩
      = p.challenge)

/-- Modelled from the spec: the order of the scalar field of the wrapped
gurvy `bn256` (alt_bn128 / BN254) curve, used by the concrete sample
instances below (every claim theorem is generic in `r`). -/
def bn256Order : Nat :=
  21888242871839275222246405745257275088548364400416034343698204186575808495617

/-- The token witness of the claim C1 counterexample: in-range value
`3^34 − 1` for `Base = 3`, `Exponent = 34`. -/
def cexWitness : TokenDataWitness bn256Order := ⟨"ABC", 3 ^ 34 - 1, 0⟩

/-- The hash-to-scalar of the token type used by the counterexample. -/
def cexHashType : String → ZMod bn256Order := fun _ => 1

/-- The counterexample's verifier: its single token commitment opens to
`cexWitness` under the Pedersen parameters `[2, 3, 5]`. -/
def cexVerifier : Verifier bn256Order :=
  { Token := [cexHashType "ABC" * 2 + ((3 ^ 34 - 1 : Nat) : ZMod bn256Order) * 3 + 0 * 5]
    Base := 3
    Exponent := 34
    PedersenParams := [2, 3, 5]
    Q := 0
    P := 0
    PK := [] }

/-- A small honest instance: one token of value 3, type "ABC", blinding 6,
with Base 2, Exponent 2, Pedersen parameters [5, 7, 11] and type hash 13,
so the token commitment is `13·5 + 3·7 + 6·11`. -/
def sampleRangeVerifier : Verifier bn256Order :=
  { Token := [(13 * 5 + 3 * 7 + 6 * 11 : ZMod bn256Order)]
    Base := 2
    Exponent := 2
    PedersenParams := [5, 7, 11]
    Q := 0
    P := 0
    PK := [] }

def sampleRangeWitnesses : List (TokenDataWitness bn256Order) := [⟨"ABC", 3, 6⟩]

def sampleRangeRandom : ProveRandom bn256Order :=
  ⟨fun _ _ => 1, 4, fun _ => 8, fun _ => 9, fun _ => 10⟩

end RangeProof

namespace GoFloat

theorem bitlenF_zero (f : Nat) : bitlenF f 0 = 0 := by
  cases f <;> simp [bitlenF]

theorem bitlen_bounds : ∀ f n, n ≤ f →
    n < 2 ^ bitlenF f n ∧ (1 ≤ n → 2 ^ (bitlenF f n - 1) ≤ n) := by
  intro f
  induction f with
  | zero =>
    intro n hn
    have : n = 0 := Nat.le_zero.mp hn
    subst this
    simp [bitlenF]
  | succ f ih =>
    intro n hn
    by_cases h0 : n = 0
    · subst h0; simp [bitlenF]
    · have h1 : 1 ≤ n := Nat.one_le_iff_ne_zero.mpr h0
      have hdiv : n / 2 ≤ f := by omega
      obtain ⟨ihlt, ihge⟩ := ih (n / 2) hdiv
      have hunfold : bitlenF (f + 1) n = bitlenF f (n / 2) + 1 := by
        simp [bitlenF, h0]
      rw [hunfold]
      constructor
      · have : n < 2 * 2 ^ bitlenF f (n / 2) := by omega
        calc n < 2 * 2 ^ bitlenF f (n / 2) := this
          _ = 2 ^ (bitlenF f (n / 2) + 1) := by ring
      · intro _
        by_cases h2 : n / 2 = 0
        · have : n = 1 := by omega
          subst this
          simp [bitlenF_zero]
        · have hL : 1 ≤ bitlenF f (n / 2) := by
            cases f with
            | zero => omega
            | succ f' => simp [bitlenF, h2]
          have hge := ihge (by omega)
          have : 2 ^ (bitlenF f (n / 2) + 1 - 1) = 2 * 2 ^ (bitlenF f (n / 2) - 1) := by
            rw [Nat.add_sub_cancel]
            conv_lhs => rw [show bitlenF f (n / 2) = bitlenF f (n / 2) - 1 + 1 from by omega]
            ring
          rw [this]
          omega

theorem bitlen_lt (n : Nat) : n < 2 ^ bitlen n :=
  (bitlen_bounds n n le_rfl).1

theorem bitlen_ge (n : Nat) (h : 1 ≤ n) : 2 ^ (bitlen n - 1) ≤ n :=
  (bitlen_bounds n n le_rfl).2 h

theorem fl53_of_lt {n : Nat} (h : n < 2 ^ 53) : fl53 n = n := by
  unfold fl53
  rw [if_pos h]

theorem fl53_pos {n : Nat} (h : 1 ≤ n) : 1 ≤ fl53 n := by
  unfold fl53
  split
  · exact h
  · rename_i hbig
    push_neg at hbig
    have h54 : 54 ≤ bitlen n := by
      have := bitlen_lt n
      by_contra hcon
      push_neg at hcon
      have : 2 ^ bitlen n ≤ 2 ^ 53 := Nat.pow_le_pow_right (by norm_num) (by omega)
      omega
    have hq : 1 ≤ n / 2 ^ (bitlen n - 53) := by
      have hge := bitlen_ge n (by omega)
      have hle : 2 ^ (bitlen n - 53) ≤ 2 ^ (bitlen n - 1) :=
        Nat.pow_le_pow_right (by norm_num) (by omega)
      have : 2 ^ (bitlen n - 53) ≤ n := le_trans hle hge
      exact (Nat.one_le_div_iff (Nat.two_pow_pos _)).mpr this
    have hp : 1 ≤ 2 ^ (bitlen n - 53) := Nat.one_le_two_pow
    split <;> nlinarith

theorem powLoopF_exact : ∀ f y a x, y < 2 ^ f → 1 ≤ a → 1 ≤ x →
    a * x ^ y < 2 ^ 53 → powLoopF f y a x = a * x ^ y := by
  intro f
  induction f with
  | zero =>
    intro y a x hy _ _ _
    have : y = 0 := by simpa using hy
    subst this
    simp [powLoopF]
  | succ f ih =>
    intro y a x hy ha hx hb
    by_cases hy0 : y = 0
    · subst hy0; simp [powLoopF]
    · have hy1 : 1 ≤ y := Nat.one_le_iff_ne_zero.mpr hy0
      have hxy1 : x ^ 1 ≤ x ^ y := Nat.pow_le_pow_right hx hy1
      have haxb : a * x < 2 ^ 53 := by
        have : a * x ≤ a * x ^ y := by
          have := Nat.mul_le_mul_left a hxy1
          simpa using this
        omega
      have hy2f : y / 2 < 2 ^ f := by
        have : y < 2 * 2 ^ f := by
          have : (2:Nat) ^ (f + 1) = 2 * 2 ^ f := by ring
          omega
        omega
      unfold powLoopF
      rw [if_neg hy0]
      by_cases hyone : y = 1
      · subst hyone
        norm_num
        rw [fl53_of_lt haxb]
        have := ih 0 (a * x) (fl53 (x * x)) (Nat.two_pow_pos f)
          (Nat.mul_pos ha hx) (fl53_pos (Nat.mul_pos hx hx)) (by simpa using haxb)
        simpa using this
      · -- y ≥ 2 : the squaring is exact
        have hy2 : 2 ≤ y := by omega
        have hxxb : x * x < 2 ^ 53 := by
          have h1 : x ^ 2 ≤ x ^ y := Nat.pow_le_pow_right hx hy2
          have h2 : x ^ y ≤ a * x ^ y := Nat.le_mul_of_pos_left _ ha
          have : x * x ≤ a * x ^ y := by
            calc x * x = x ^ 2 := by ring
              _ ≤ x ^ y := h1
              _ ≤ a * x ^ y := h2
          omega
        rw [fl53_of_lt hxxb]
        by_cases hpar : y % 2 = 1
        · -- odd, y ≥ 3
          rw [if_pos hpar, fl53_of_lt haxb]
          have hrec : a * x * (x * x) ^ (y / 2) = a * x ^ y := by
            have hy' : 2 * (y / 2) + 1 = y := by omega
            calc a * x * (x * x) ^ (y / 2) = a * x ^ (2 * (y / 2) + 1) := by ring
              _ = a * x ^ y := by rw [hy']
          rw [ih (y / 2) (a * x) (x * x) hy2f (Nat.mul_pos ha hx) (Nat.mul_pos hx hx)
            (by rw [hrec]; exact hb), hrec]
        · -- even, y ≥ 2
          rw [if_neg hpar]
          have hrec : a * (x * x) ^ (y / 2) = a * x ^ y := by
            have hy' : 2 * (y / 2) = y := by omega
            calc a * (x * x) ^ (y / 2) = a * x ^ (2 * (y / 2)) := by ring
              _ = a * x ^ y := by rw [hy']
          rw [ih (y / 2) a (x * x) hy2f ha (Nat.mul_pos hx hx)
            (by rw [hrec]; exact hb), hrec]

/-- In the float64-exact regime the Go power loop computes the exact power. -/
theorem goPow_exact {b e : Nat} (hb : 1 ≤ b) (h : b ^ e < 2 ^ 53) :
    goPow b e = b ^ e := by
  have := powLoopF_exact e e 1 b (Nat.lt_two_pow e) le_rfl hb (by simpa using h)
  simpa [goPow] using this

/-- Concrete defect of the float64 model: `math.Pow(3, 34)` rounds DOWN to
`3^34 - 1` (the exact value `16677181699666569` is odd and lies in
`[2^53, 2^54)` where doubles are even, and the tie goes to the even
mantissa below). -/
theorem goPow_3_34 : goPow 3 34 = 3 ^ 34 - 1 := by decide

/-- Concrete defect of the float64 model: `math.Pow(7, 19)` rounds UP to
`7^19 + 1`. -/
theorem goPow_7_19 : goPow 7 19 = 7 ^ 19 + 1 := by decide

theorem digitsHighF_length (B : Nat) : ∀ j v, (digitsHighF B j v).1.length = j := by
  intro j
  induction j with
  | zero => intro v; simp [digitsHighF]
  | succ j ih => intro v; simp [digitsHighF, ih]

theorem digitsHighF_eq (B : Nat) (hB : 1 ≤ B) :
    ∀ j v, v < B ^ (j + 1) → (∀ i, i ≤ j → goPow B i = B ^ i) →
    (digitsHighF B j v).1 =
      (((List.range' 1 j).map fun i => v / B ^ i % B)).reverse := by
  intro j
  induction j with
  | zero => intro v _ _; simp [digitsHighF]
  | succ j ih =>
    intro v hv hex
    have hp : goPow B (j + 1) = B ^ (j + 1) := hex (j + 1) le_rfl
    have hpow : 0 < B ^ (j + 1) := Nat.pos_pow_of_pos _ hB
    have hd : v / B ^ (j + 1) < B := by
      rw [Nat.div_lt_iff_lt_mul hpow]
      calc v < B ^ (j + 1 + 1) := hv
        _ = B * B ^ (j + 1) := by ring
    have hdmod : v / B ^ (j + 1) % B = v / B ^ (j + 1) := Nat.mod_eq_of_lt hd
    have hv' : v % B ^ (j + 1) < B ^ (j + 1) := Nat.mod_lt _ hpow
    have htail := ih (v % B ^ (j + 1)) hv' (fun i hi => hex i (by omega))
    have hcongr : ((List.range' 1 j).map fun i => v % B ^ (j + 1) / B ^ i % B) =
        ((List.range' 1 j).map fun i => v / B ^ i % B) := by
      apply List.map_congr_left
      intro i hi
      rw [List.mem_range'] at hi
      obtain ⟨h1, h2⟩ := hi
      have hsplit : B ^ (j + 1) = B ^ i * B ^ (j + 1 - i) := by
        rw [← pow_add]
        congr 1
        omega
      have hmoddiv : v % B ^ (j + 1) / B ^ i = v / B ^ i % B ^ (j + 1 - i) := by
        rw [hsplit, Nat.mod_mul_right_div_self]
      rw [hmoddiv]
      have hdvd : B ∣ B ^ (j + 1 - i) := dvd_pow_self B (by omega)
      rw [Nat.mod_mod_of_dvd _ hdvd]
    rw [List.range'_concat]
    simp only [digitsHighF, List.map_append, List.reverse_append, List.map_cons,
      List.map_nil, List.reverse_cons, List.reverse_nil, List.nil_append,
      List.cons_append, List.singleton_append]
    rw [hp]
    have h11 : 1 + 1 * j = j + 1 := by omega
    rw [h11]
    congr 1
    · rw [hdmod]
    · rw [htail, hcongr]

/-- In the float64-exact regime, the digits computed by the Go loop are
exactly the base-`B` digits of `v`, least-significant first. -/
theorem goDigits_eq (B E v : Nat) (hB : 1 ≤ B) (hE : 1 ≤ E) (hv : v < B ^ E)
    (hex : ∀ i, i ≤ E - 1 → goPow B i = B ^ i) :
    goDigits B E v = (List.range E).map fun i => v / B ^ i % B := by
  unfold goDigits
  have hE' : E - 1 + 1 = E := by omega
  have := digitsHighF_eq B hB (E - 1) v (by rw [hE']; exact hv) hex
  rw [this, List.reverse_reverse]
  have hrange : List.range E = 0 :: List.range' 1 (E - 1) := by
    rw [List.range_eq_range']
    conv_lhs => rw [show E = E - 1 + 1 from by omega]
    rw [List.range'_succ]
  rw [hrange]
  simp

theorem goDigits_length (B E v : Nat) (hE : 1 ≤ E) : (goDigits B E v).length = E := by
  unfold goDigits
  simp [digitsHighF_length]
  omega

/-- Reconstruction: the weighted sum of the base-`B` digits of `v` is `v`
whenever `v < B ^ E`. -/
theorem digit_sum_eq (B : Nat) (hB : 1 ≤ B) :
    ∀ E v, v < B ^ E → (((List.range E).map fun i => v / B ^ i % B * B ^ i)).sum = v := by
  intro E
  induction E with
  | zero => intro v hv; simp at hv ⊢; omega
  | succ E ih =>
    intro v hv
    rw [List.range_succ_eq_map]
    simp only [List.map_cons, List.map_map, List.sum_cons]
    have hstep : ((List.range E).map ((fun i => v / B ^ i % B * B ^ i) ∘ Nat.succ)) =
        (List.range E).map fun i => B * (v / B / B ^ i % B * B ^ i) := by
      apply List.map_congr_left
      intro i _
      simp only [Function.comp, Nat.succ_eq_add_one]
      rw [show B ^ (i + 1) = B * B ^ i from by ring, ← Nat.div_div_eq_div_mul]
      ring
    rw [hstep]
    have hdivlt : v / B < B ^ E := by
      rw [Nat.div_lt_iff_lt_mul (by omega)]
      calc v < B ^ (E + 1) := hv
        _ = B ^ E * B := by ring
    have hsum := ih (v / B) hdivlt
    have hmul : ((List.range E).map fun i => B * (v / B / B ^ i % B * B ^ i)).sum =
        B * ((List.range E).map fun i => v / B / B ^ i % B * B ^ i).sum := by
      rw [← List.sum_map_mul_left]
    rw [hmul, hsum]
    simp only [pow_zero, Nat.div_one, mul_one]
    exact Nat.mod_add_div v B

theorem digit_lt (B : Nat) (hB : 1 ≤ B) (v i : Nat) : v / B ^ i % B < B :=
  Nat.mod_lt _ hB

end GoFloat

namespace Translator

@[simp] theorem setState_state (s : RWSet) (k : Key) (v : Bytes) (k' : Key) :
    (s.setState k v).state k' = if k' = k then some v else s.state k' := rfl

@[simp] theorem deleteState_state (s : RWSet) (k : Key) (k' : Key) :
    (s.deleteState k).state k' = if k' = k then none else s.state k' := rfl

@[simp] theorem setStateMetadata_state (s : RWSet) (k : Key) (m : MetaVal) :
    (s.setStateMetadata k m).state = s.state := rfl

@[simp] theorem setStateMetadata_metadata (s : RWSet) (k : Key) (m : MetaVal) (k' : Key) :
    (s.setStateMetadata k m).metadata k' = if k' = k then some m else s.metadata k' := rfl

@[simp] theorem setState_metadata (s : RWSet) (k : Key) (v : Bytes) :
    (s.setState k v).metadata = s.metadata := rfl

@[simp] theorem deleteState_metadata (s : RWSet) (k : Key) :
    (s.deleteState k).metadata = s.metadata := rfl

theorem writeIssueOutputs_frame (txID : String) :
    ∀ outs rw start k, (∀ i, i < outs.length → k ≠ Key.token txID (start + i)) →
    ((writeIssueOutputs rw txID start outs).state k = rw.state k ∧
      (writeIssueOutputs rw txID start outs).metadata k = rw.metadata k) := by
  intro outs
  induction outs with
  | nil => intro rw start k _; exact ⟨rfl, rfl⟩
  | cons b rest ih =>
    intro rw start k hk
    have hk0 : k ≠ Key.token txID start := by
      have := hk 0 (by simp)
      simpa using this
    have hrest : ∀ i, i < rest.length → k ≠ Key.token txID (start + 1 + i) := by
      intro i hi
      have := hk (i + 1) (by simp; omega)
      rw [show start + (i + 1) = start + 1 + i from by omega] at this
      exact this
    unfold writeIssueOutputs
    have hstep := ih ((rw.setState (Key.token txID start) b).setStateMetadata
      (Key.token txID start) (some [(keysAction, keysActionIssue)])) (start + 1) k hrest
    refine ⟨?_, ?_⟩
    · rw [hstep.1]; simp [hk0]
    · rw [hstep.2]; simp [hk0]

theorem writeIssueOutputs_written (txID : String) :
    ∀ outs rw start i, i < outs.length →
    ((writeIssueOutputs rw txID start outs).state (Key.token txID (start + i)) =
        some (outs.getD i []) ∧
      (writeIssueOutputs rw txID start outs).metadata (Key.token txID (start + i)) =
        some (some [(keysAction, keysActionIssue)])) := by
  intro outs
  induction outs with
  | nil => intro rw start i hi; simp at hi
  | cons b rest ih =>
    intro rw start i hi
    match i with
    | 0 =>
      have hfr : ∀ j, j < rest.length →
          Key.token txID (start + 0) ≠ Key.token txID (start + 1 + j) := by
        intro j _
        simp only [ne_eq, Key.token.injEq, not_and]
        intro _
        omega
      unfold writeIssueOutputs
      have hstep := writeIssueOutputs_frame txID rest
        ((rw.setState (Key.token txID start) b).setStateMetadata
          (Key.token txID start) (some [(keysAction, keysActionIssue)]))
        (start + 1) (Key.token txID (start + 0)) hfr
      refine ⟨?_, ?_⟩
      · rw [hstep.1]; simp
      · rw [hstep.2]; simp
    | i + 1 =>
      have hgoal := ih ((rw.setState (Key.token txID start) b).setStateMetadata
        (Key.token txID start) (some [(keysAction, keysActionIssue)]))
        (start + 1) i (by simpa using hi)
      unfold writeIssueOutputs
      rw [show start + (i + 1) = start + 1 + i from by omega]
      simpa using hgoal

/-- Frame for the transfer output loop: a key that is not among the keys of
the non-redeemed outputs is untouched. -/
theorem writeTransferOutputs_frame (txID : String) :
    ∀ outs rw start k,
    (∀ i, i < outs.length → (outs.getD i ⟨true, []⟩).redeem = false →
      k ≠ Key.token txID (start + i)) →
    ((writeTransferOutputs rw txID start outs).state k = rw.state k ∧
      (writeTransferOutputs rw txID start outs).metadata k = rw.metadata k) := by
  intro outs
  induction outs with
  | nil => intro rw start k _; exact ⟨rfl, rfl⟩
  | cons o rest ih =>
    intro rw start k hk
    have hrest : ∀ i, i < rest.length → (rest.getD i ⟨true, []⟩).redeem = false →
        k ≠ Key.token txID (start + 1 + i) := by
      intro i hi hr
      have := hk (i + 1) (by simp; omega) (by simpa using hr)
      rw [show start + (i + 1) = start + 1 + i from by omega] at this
      exact this
    unfold writeTransferOutputs
    by_cases ho : o.redeem = true
    · rw [if_pos ho]
      exact ih rw (start + 1) k hrest
    · rw [if_neg ho]
      have hk0 : k ≠ Key.token txID start := by
        have := hk 0 (by simp) (by simpa using Bool.eq_false_iff.mpr ho)
        simpa using this
      have hstep := ih ((rw.setState (Key.token txID start) o.bytes).setStateMetadata
        (Key.token txID start) (some [(keysAction, keysActionTransfer)])) (start + 1) k hrest
      refine ⟨?_, ?_⟩
      · rw [hstep.1]; simp [hk0]
      · rw [hstep.2]; simp [hk0]

theorem writeTransferOutputs_written (txID : String) :
    ∀ outs rw start i, i < outs.length → (outs.getD i ⟨true, []⟩).redeem = false →
    ((writeTransferOutputs rw txID start outs).state (Key.token txID (start + i)) =
        some (outs.getD i ⟨true, []⟩).bytes ∧
      (writeTransferOutputs rw txID start outs).metadata (Key.token txID (start + i)) =
        some (some [(keysAction, keysActionTransfer)])) := by
  intro outs
  induction outs with
  | nil => intro rw start i hi; simp at hi
  | cons o rest ih =>
    intro rw start i hi hred
    match i with
    | 0 =>
      simp only [List.getD_cons_zero] at hred ⊢
      have hfr : ∀ j, j < rest.length → (rest.getD j ⟨true, []⟩).redeem = false →
          Key.token txID (start + 0) ≠ Key.token txID (start + 1 + j) := by
        intro j _ _
        simp only [ne_eq, Key.token.injEq, not_and]
        intro _
        omega
      unfold writeTransferOutputs
      rw [if_neg (by simp [hred])]
      have hstep := writeTransferOutputs_frame txID rest
        ((rw.setState (Key.token txID start) o.bytes).setStateMetadata
          (Key.token txID start) (some [(keysAction, keysActionTransfer)]))
        (start + 1) (Key.token txID (start + 0)) hfr
      refine ⟨?_, ?_⟩
      · rw [hstep.1]; simp
      · rw [hstep.2]; simp
    | i + 1 =>
      simp only [List.getD_cons_succ] at hred ⊢
      have hgoal := ih (if o.redeem then rw
        else (rw.setState (Key.token txID start) o.bytes).setStateMetadata
          (Key.token txID start) (some [(keysAction, keysActionTransfer)]))
        (start + 1) i (by simpa using hi) hred
      unfold writeTransferOutputs
      rw [show start + (i + 1) = start + 1 + i from by omega]
      simpa using hgoal

theorem spendTokens_frame (gh : Bool) :
    ∀ ids rw k, k ∉ ids →
    ((spendTokens rw gh ids).state k = rw.state k ∧
      (spendTokens rw gh ids).metadata k = rw.metadata k) := by
  intro ids
  induction ids with
  | nil => intro rw k _; exact ⟨rfl, rfl⟩
  | cons j rest ih =>
    intro rw k hk
    have hkj : k ≠ j := by intro h; exact hk (by simp [h])
    have hkrest : k ∉ rest := by intro h; exact hk (by simp [h])
    unfold spendTokens
    rcases Bool.dichotomy gh with hgh | hgh
    · subst hgh
      norm_num
      have hstep := ih ((rw.deleteState j).setStateMetadata j none) k hkrest
      refine ⟨?_, ?_⟩
      · rw [hstep.1]; simp [hkj]
      · rw [hstep.2]; simp [hkj]
    · subst hgh
      norm_num
      have hstep := ih (rw.setState j trueMarker) k hkrest
      refine ⟨?_, ?_⟩
      · rw [hstep.1]; simp [hkj]
      · exact hstep.2

/-- After `spendTokens`, every spent key is deleted (with cleared metadata)
in non-graph-hiding mode, or holds the nullifier marker in graph-hiding
mode. -/
theorem spendTokens_spent (gh : Bool) :
    ∀ ids rw k, k ∈ ids →
    (spendTokens rw gh ids).state k =
      (if gh then some trueMarker else none) := by
  intro ids
  induction ids with
  | nil => intro rw k hk; simp at hk
  | cons j rest ih =>
    intro rw k hk
    by_cases hkrest : k ∈ rest
    · unfold spendTokens
      rcases Bool.dichotomy gh with hgh | hgh <;> subst hgh <;> norm_num <;>
        exact ih _ k hkrest
    · have hkj : k = j := by
        rcases List.mem_cons.mp hk with h | h
        · exact h
        · exact absurd h hkrest
      subst hkj
      unfold spendTokens
      rcases Bool.dichotomy gh with hgh | hgh
      · subst hgh
        norm_num
        have hstep := spendTokens_frame false rest
          ((rw.deleteState k).setStateMetadata k none) k hkrest
        rw [hstep.1]
        simp
      · subst hgh
        norm_num
        have hstep := spendTokens_frame true rest (rw.setState k trueMarker) k hkrest
        rw [hstep.1]
        simp

theorem checkTransferInputs_ok_not_spent (s : RWSet) (gh : Bool) :
    ∀ ids, checkTransferInputs s gh ids = none →
      ∀ k, k ∈ ids → spent s gh k = false := by
  intro ids
  induction ids with
  | nil => intro _ k hk; simp at hk
  | cons j rest ih =>
    intro hok k hk
    unfold checkTransferInputs at hok
    rcases Bool.dichotomy gh with hgh | hgh <;> subst hgh <;>
      simp only [if_true, if_false, Bool.false_eq_true] at hok <;>
      split at hok
    case inl.isTrue => exact absurd hok (by simp)
    case inl.isFalse hlen =>
      rcases List.mem_cons.mp hk with h | h
      · subst h
        simpa [spent, RWSet.getState] using hlen
      · exact ih hok k h
    case inr.isTrue => exact absurd hok (by simp)
    case inr.isFalse hlen =>
      rcases List.mem_cons.mp hk with h | h
      · subst h
        simp only [ne_eq, not_not] at hlen
        have hnil : (s.state k).getD [] = [] :=
          List.eq_nil_of_length_eq_zero (by simpa [RWSet.getState] using hlen)
        simp [spent, hnil]
      · exact ih hok k h

theorem checkTransferInputs_fails_of_spent (s : RWSet) (gh : Bool)
    (ids : List Key) (k : Key) (hk : k ∈ ids) (hsp : spent s gh k = true) :
    (checkTransferInputs s gh ids).isSome = true := by
  match h : checkTransferInputs s gh ids with
  | some e => rfl
  | none =>
    have := checkTransferInputs_ok_not_spent s gh ids h k hk
    simp [hsp] at this

/-- Failing the input precondition fails the whole transfer check. -/
theorem checkTransfer_fails_of_spent (w : Translator) (t : TransferAction)
    (k : Key) (hk : k ∈ t.inputs) (hsp : spent w.rwSet t.graphHiding k = true) :
    (checkTransfer w t).isSome = true := by
  unfold checkTransfer
  match h : checkTransferInputs w.rwSet t.graphHiding t.inputs with
  | some e => rfl
  | none =>
    have := checkTransferInputs_fails_of_spent w.rwSet t.graphHiding t.inputs k hk hsp
    rw [h] at this
    simp at this

/-- After the commit stage of a transfer, each input key is in consumed
state for the transfer's mode. -/
theorem commitTransferAction_spends (w : Translator) (t : TransferAction)
    (k : Key) (hk : k ∈ t.inputs) :
    spent (commitTransferAction w t).rwSet t.graphHiding k = true := by
  have hst := spendTokens_spent t.graphHiding t.inputs
    (writeTransferOutputs w.rwSet w.txID w.counter t.outputs) k hk
  unfold commitTransferAction spent
  simp only
  rw [hst]
  rcases Bool.dichotomy t.graphHiding with hgh | hgh <;> rw [hgh] <;> simp [trueMarker]

/-- One step of preservation: a `Write` whose action derives no output key
equal to `k`, and whose transfers run in mode `gh`, keeps a consumed key
consumed. -/
theorem spent_preserved_write (w : Translator) (a : TokenAction) (gh : Bool)
    (k : Key) (hsp : spent w.rwSet gh k = true)
    (hout : k ∉ outputKeys w a)
    (hmode : ∀ t, a = TokenAction.transfer t → t.graphHiding = gh) :
    spent (Write w a).1.rwSet gh k = true := by
  unfold Write
  match hchk : checkAction w a with
  | some e => exact hsp
  | none =>
    match a with
    | .setup s =>
      have hks : k ≠ Key.setup := by
        intro h
        exact hout (by simp [outputKeys, h])
      unfold commitAction commitSetupAction
      simp only
      unfold spent at hsp ⊢
      simp only [RWSet.setState, ne_eq]
      rw [if_neg hks] at *
      exact hsp
    | .issue a =>
      have hkeys : ∀ i, i < a.outputs.length → k ≠ Key.token w.txID (w.counter + i) := by
        intro i hi h
        apply hout
        simp only [outputKeys, List.mem_map, List.mem_range]
        exact ⟨i, hi, h.symm⟩
      unfold commitAction commitIssueAction
      simp only
      unfold spent at hsp ⊢
      rw [(writeIssueOutputs_frame w.txID a.outputs w.rwSet w.counter k hkeys).1]
      exact hsp
    | .transfer t =>
      have hgh : t.graphHiding = gh := hmode t rfl
      have hchk' : checkTransfer w t = none := by simpa [checkAction] using hchk
      have hinok : checkTransferInputs w.rwSet t.graphHiding t.inputs = none := by
        unfold checkTransfer at hchk'
        match h : checkTransferInputs w.rwSet t.graphHiding t.inputs with
        | none => rfl
        | some e => rw [h] at hchk'; simp at hchk'
      have hknotin : k ∉ t.inputs := by
        intro hmem
        have := checkTransferInputs_ok_not_spent w.rwSet t.graphHiding t.inputs hinok k hmem
        rw [hgh, hsp] at this
        cases this
      have hkeys : ∀ i, i < t.outputs.length → (t.outputs.getD i ⟨true, []⟩).redeem = false →
          k ≠ Key.token w.txID (w.counter + i) := by
        intro i hi _ h
        apply hout
        simp only [outputKeys, List.mem_map, List.mem_range]
        exact ⟨i, hi, h.symm⟩
      unfold commitAction commitTransferAction
      simp only
      unfold spent at hsp ⊢
      rw [(spendTokens_frame t.graphHiding t.inputs _ k hknotin).1,
        (writeTransferOutputs_frame w.txID t.outputs w.rwSet w.counter k hkeys).1]
      exact hsp

/-- Preservation along a fresh, mode-consistent sequence of writes. -/
theorem spent_preserved_applyWrites (gh : Bool) (k : Key) :
    ∀ acts w, spent w.rwSet gh k = true → freshAlong w k acts = true →
      modesAlong gh acts = true →
      spent (applyWrites w acts).rwSet gh k = true := by
  intro acts
  induction acts with
  | nil => intro w hsp _ _; exact hsp
  | cons a rest ih =>
    intro w hsp hfresh hmode
    unfold freshAlong at hfresh
    have hout : k ∉ outputKeys w a := by
      intro h
      rw [if_pos h] at hfresh
      cases hfresh
    rw [if_neg hout] at hfresh
    have hmode' : modesAlong gh rest = true ∧
        (∀ t, a = TokenAction.transfer t → t.graphHiding = gh) := by
      match a with
      | .transfer t =>
        unfold modesAlong at hmode
        simp only [Bool.and_eq_true, beq_iff_eq] at hmode
        exact ⟨hmode.2, fun t' ht => by injection ht with h; rw [← h]; exact hmode.1⟩
      | .issue a => exact ⟨hmode, fun t ht => by cases ht⟩
      | .setup s => exact ⟨hmode, fun t ht => by cases ht⟩
    unfold applyWrites
    exact ih (Write w a).1 (spent_preserved_write w a gh k hsp hout hmode'.2)
      hfresh hmode'.1

/-- Claim C3: double-spend protection as a step invariant. After a transfer
consuming input key `K` is committed — which deletes `K`'s state in
non-graph-hiding mode or writes a nullifier marker under `K` in graph-hiding
mode — and after any further sequence of `Write`s whose derived output keys
avoid `K` (collision-free key derivation, §6) and whose transfer actions run
in the same graph-hiding mode, every transfer action listing `K` as an input
fails the ledger precondition check: in non-graph-hiding mode the check
requires every input key to hold a non-empty value, and in graph-hiding mode
it requires the input's nullifier key to be absent. -/
theorem claim_C3_double_spend_protection (w : Translator) (t : TransferAction)
    (K : Key) (hK : K ∈ t.inputs) (acts : List TokenAction)
    (hfresh : freshAlong (commitTransferAction w t) K acts = true)
    (hmode : modesAlong t.graphHiding acts = true)
    (t2 : TransferAction) (hK2 : K ∈ t2.inputs)
    (hgh2 : t2.graphHiding = t.graphHiding) :
    (checkTransfer (applyWrites (commitTransferAction w t) acts) t2).isSome = true := by
  apply checkTransfer_fails_of_spent _ t2 K hK2
  rw [hgh2]
  exact spent_preserved_applyWrites t.graphHiding K acts (commitTransferAction w t)
    (commitTransferAction_spends w t K hK) hfresh hmode

theorem claim_C3_double_spend_protection_witness :
    (Key.token "a" 0 ∈ sampleTransfer.inputs
      ∧ freshAlong (commitTransferAction sampleTranslator sampleTransfer)
          (Key.token "a" 0) sampleLaterActs = true
      ∧ modesAlong sampleTransfer.graphHiding sampleLaterActs = true)
    ∧ (checkTransfer
        (applyWrites (commitTransferAction sampleTranslator sampleTransfer)
          sampleLaterActs) sampleTransfer).isSome = true :=
  ⟨⟨by decide, by decide, by decide⟩,
    claim_C3_double_spend_protection sampleTranslator sampleTransfer
      (Key.token "a" 0) (by decide) sampleLaterActs (by decide) (by decide)
      sampleTransfer (by decide) rfl⟩

/-- Claim C7: whole-request anti-replay. `CommitTokenRequest` writes the raw
request bytes under the anchor-derived token-request key exactly when no
value is stored there; when a value is already stored it returns an error
and the storage state is unchanged. -/
theorem claim_C7_token_request_antireplay (w : Translator) (raw : Bytes) :
    ((CommitTokenRequest w raw).2 = none ↔
      w.rwSet.state (Key.tokenRequest w.txID) = none)
    ∧ (∀ k, (CommitTokenRequest w raw).1.rwSet.state k =
        if (w.rwSet.state (Key.tokenRequest w.txID)).isSome then w.rwSet.state k
        else if k = Key.tokenRequest w.txID then some raw else w.rwSet.state k)
    ∧ (CommitTokenRequest w raw).1.rwSet.metadata = w.rwSet.metadata
    ∧ (CommitTokenRequest w raw).1.counter = w.counter := by
  unfold CommitTokenRequest RWSet.getState
  rcases h : w.rwSet.state (Key.tokenRequest w.txID) with _ | v
  · simp [h, RWSet.setState]
  · simp [h]

/-- Claim C10: a `SetupAction` passes `checkAction` unconditionally, and its
commit overwrites the setup key with the action's payload whatever was there
before (no anti-replay, unlike `CommitTokenRequest`), leaving the running
counter and every other key unchanged. -/
theorem claim_C10_setup_unchecked_overwrite (w : Translator) (a : SetupAction) :
    checkAction w (TokenAction.setup a) = none
    ∧ (Write w (TokenAction.setup a)).2 = none
    ∧ (Write w (TokenAction.setup a)).1.counter = w.counter
    ∧ (∀ k, (Write w (TokenAction.setup a)).1.rwSet.state k =
        if k = Key.setup then some a.params else w.rwSet.state k)
    ∧ (Write w (TokenAction.setup a)).1.rwSet.metadata = w.rwSet.metadata := by
  refine ⟨rfl, rfl, rfl, ?_, rfl⟩
  intro k
  simp [Write, checkAction, commitAction, commitSetupAction, RWSet.setState]

/-- Claim C8: commit-stage key assignment. Issue outputs are written under
`(txID, counter + i)` in action order and tagged with the issue metadata;
the counter advances by the output count. Transfer outputs are written the
same way and tagged with the transfer metadata, except redeemed outputs,
for which no key is written but whose position still advances the index;
transfer inputs are deleted (non-graph-hiding) or overwritten with the
nullifier marker (graph-hiding); and the counter advances by the transfer's
full output count, redeemed outputs included. -/
theorem claim_C8_commit_key_assignment (w : Translator) (a : IssueAction)
    (t : TransferAction) :
    ((commitIssueAction w a).counter = w.counter + a.outputs.length
      ∧ ∀ i, i < a.outputs.length →
          (commitIssueAction w a).rwSet.state (Key.token w.txID (w.counter + i)) =
              some (a.outputs.getD i [])
            ∧ (commitIssueAction w a).rwSet.metadata (Key.token w.txID (w.counter + i)) =
              some (some [(keysAction, keysActionIssue)]))
    ∧ ((commitTransferAction w t).counter = w.counter + t.outputs.length
      ∧ (∀ i, i < t.outputs.length → (t.outputs.getD i ⟨true, []⟩).redeem = false →
          Key.token w.txID (w.counter + i) ∉ t.inputs →
          (commitTransferAction w t).rwSet.state (Key.token w.txID (w.counter + i)) =
              some (t.outputs.getD i ⟨true, []⟩).bytes
            ∧ (commitTransferAction w t).rwSet.metadata (Key.token w.txID (w.counter + i)) =
              some (some [(keysAction, keysActionTransfer)]))
      ∧ (∀ i, i < t.outputs.length → (t.outputs.getD i ⟨true, []⟩).redeem = true →
          Key.token w.txID (w.counter + i) ∉ t.inputs →
          (commitTransferAction w t).rwSet.state (Key.token w.txID (w.counter + i)) =
            w.rwSet.state (Key.token w.txID (w.counter + i)))
      ∧ (∀ K, K ∈ t.inputs →
          (commitTransferAction w t).rwSet.state K =
            if t.graphHiding then some trueMarker else none)) := by
  refine ⟨⟨rfl, ?_⟩, rfl, ?_, ?_, ?_⟩
  · intro i hi
    exact writeIssueOutputs_written w.txID a.outputs w.rwSet w.counter i hi
  · intro i hi hred hnotin
    obtain ⟨h1, h2⟩ := writeTransferOutputs_written w.txID t.outputs w.rwSet w.counter i hi hred
    have hframe := spendTokens_frame t.graphHiding t.inputs
      (writeTransferOutputs w.rwSet w.txID w.counter t.outputs)
      (Key.token w.txID (w.counter + i)) hnotin
    unfold commitTransferAction
    exact ⟨by rw [hframe.1, h1], by rw [hframe.2, h2]⟩
  · intro i hi hred hnotin
    have hkeys : ∀ j, j < t.outputs.length → (t.outputs.getD j ⟨true, []⟩).redeem = false →
        Key.token w.txID (w.counter + i) ≠ Key.token w.txID (w.counter + j) := by
      intro j hj hredj heq
      simp only [Key.token.injEq] at heq
      have : i = j := by omega
      subst this
      rw [hred] at hredj
      cases hredj
    have hframe := spendTokens_frame t.graphHiding t.inputs
      (writeTransferOutputs w.rwSet w.txID w.counter t.outputs)
      (Key.token w.txID (w.counter + i)) hnotin
    have hframe2 := writeTransferOutputs_frame w.txID t.outputs w.rwSet w.counter
      (Key.token w.txID (w.counter + i)) hkeys
    unfold commitTransferAction
    rw [hframe.1, hframe2.1]
  · intro K hK
    unfold commitTransferAction
    exact spendTokens_spent t.graphHiding t.inputs
      (writeTransferOutputs w.rwSet w.txID w.counter t.outputs) K hK

theorem claim_C8_commit_key_assignment_witness :
    ((commitIssueAction sampleTranslator ⟨[2], [[9]]⟩).counter = 1
      ∧ (commitIssueAction sampleTranslator ⟨[2], [[9]]⟩).rwSet.state
          (Key.token "b" 0) = some [9])
    ∧ ((commitTransferAction sampleTranslator sampleRedeemTransfer).counter = 2
      ∧ (commitTransferAction sampleTranslator sampleRedeemTransfer).rwSet.state
          (Key.token "b" 1) = some [5]
      ∧ (commitTransferAction sampleTranslator sampleRedeemTransfer).rwSet.state
          (Key.token "b" 0) = none
      ∧ (commitTransferAction sampleTranslator sampleRedeemTransfer).rwSet.state
          (Key.token "a" 0) = none) := by
  have h := claim_C8_commit_key_assignment sampleTranslator ⟨[2], [[9]]⟩ sampleRedeemTransfer
  refine ⟨⟨h.1.1, ?_⟩, h.2.1, ?_, ?_, ?_⟩
  · exact (h.1.2 0 (by decide)).1
  · exact (h.2.2.1 1 (by decide) (by decide) (by decide)).1
  · have h3 := h.2.2.2.1 0 (by decide) (by decide) (by decide)
    exact h3.trans (by decide)
  · have h4 := h.2.2.2.2 (Key.token "a" 0) (by decide)
    exact h4.trans (by decide)

end Translator

namespace TokenRequest

/-- Claim C2, evaluation at the failing inputs. Part one: over two passed
input tokens of different types, `parseInputIDs` reports NO error — the
intended "tokens must have the same type" refusal is built with
`errors.WithMessagef(err, …)` while `err` is nil, which yields nil — and
`prepareTransfer` then panics dereferencing the nil input sum instead of
refusing with a FormatError. Part two: over inputs of one type summing to
8 against outputs summing to 10, `prepareTransfer` succeeds — the
input/output sum mismatch is not refused before proof construction. -/
theorem claim_C2_conservation_not_refused :
    ((parseInputIDs getTokensMixed [⟨"t", 0⟩, ⟨"t", 1⟩]).err = none
      ∧ prepareTransfer getTokensMixed certifyOk selectNone recipientOk
          false "A" [10] [some [1]] [⟨"t", 0⟩, ⟨"t", 1⟩] = .error .panicNil)
    ∧ prepareTransfer getTokensDeficit certifyOk selectNone recipientOk
        false "A" [10] [some [1]] [⟨"t", 0⟩, ⟨"t", 1⟩] =
      .ok ([⟨"t", 0⟩, ⟨"t", 1⟩], [⟨some [1], "A", 10⟩]) := by
  refine ⟨⟨rfl, rfl⟩, rfl⟩

end TokenRequest

namespace SigProof

/-- Claim C5, evaluation at the failing input. A verifier whose public key
has length 5 against a proof with 1 hidden response and 1 disclosed value
(1 + 1 ≠ 5 − 2): `recomputeCommitments` reports the length error, but
`Verify` returns nil — it ACCEPTS the malformed proof — because the error
is discarded by `return nil`. The prover side of the contract does hold:
`SigProver.Prove` refuses the same mismatch (its public-key length check
fails). -/
theorem claim_C5_length_contract_eval :
    (recomputeCommitments (r := 5) (fun _ _ => .ok 0)
        { P := 1, Q := 1, PK := [0, 0, 0, 0, 0], hiddenIndices := [0]
          disclosedIndices := [1], disclosed := [2], pedersenParams := [1, 1]
          commitmentToMessages := 0 }
        { challenge := 3, hidden := [1], hash := 0, signature := ⟨0⟩
          sigBlindingFactor := 0, comBlindingFactor := 0, commitment := 0 }).isOk
      = false
    ∧ SigVerifier.Verify (r := 5) (fun _ _ => .ok 0) (fun _ => 0)
        { P := 1, Q := 1, PK := [0, 0, 0, 0, 0], hiddenIndices := [0]
          disclosedIndices := [1], disclosed := [2], pedersenParams := [1, 1]
          commitmentToMessages := 0 }
        { challenge := 3, hidden := [1], hash := 0, signature := ⟨0⟩
          sigBlindingFactor := 0, comBlindingFactor := 0, commitment := 0 } = none
    ∧ (SigProver.Prove (r := 5) id (fun _ => 0) (fun _ => 0)
        { P := 1, Q := 1, PK := [0, 0, 0, 0, 0], hiddenIndices := [0]
          disclosedIndices := [1], disclosed := [2], pedersenParams := [1, 1]
          commitmentToMessages := 0 }
        { hidden := [1], hash := 0, signature := ⟨0⟩, comBlindingFactor := 0 }
        [0] 0 0 0).isOk = false := by
  refine ⟨rfl, rfl, rfl⟩

end SigProof

namespace Anonym

/-- Claim C9: anonymous issuer authorization is fail-closed.
`anonym.Verifier.Verify` succeeds exactly when the Pedersen parameter list
has length 3, the signature deserializes, the one-out-of-many proof over
the difference commitments `Auth.Type − Issuers[k]` verifies, and the
type-correctness proof verifies; a failure of either sub-proof (or of
deserialization, or a parameter list of the wrong length) is an error. -/
theorem claim_C9_anonym_fail_closed {r : Nat}
    (o2ompVerify : List (ZMod r) → List Nat → List (ZMod r) → Nat → List Nat →
      Option String)
    (tcVerify : ZMod r → ZMod r → List Nat → List (ZMod r) → List Nat →
      Option String)
    (v : Verifier r) (message : List Nat) (rawsig : Option Signature) :
    Verifier.Verify o2ompVerify tcVerify v message rawsig = none ↔
      (v.pedersenParams.length = 3 ∧ ∃ sig, rawsig = some sig ∧
        o2ompVerify (v.issuers.map fun i => v.auth.typ - i) message
          [v.pedersenParams.getD 0 0, v.pedersenParams.getD 2 0] v.bitLength
          sig.authorizationCorrectness = none ∧
        tcVerify v.auth.typ v.auth.token message v.pedersenParams
          sig.typeCorrectness = none) := by
  unfold Verifier.Verify
  by_cases hpp : v.pedersenParams.length = 3
  · rw [if_neg (by omega)]
    match rawsig with
    | none => simp
    | some sig =>
      simp only [Option.some.injEq, exists_eq_left', hpp, true_and]
      match h : o2ompVerify (v.issuers.map fun i => v.auth.typ - i) message
          [v.pedersenParams.getD 0 0, v.pedersenParams.getD 2 0] v.bitLength
          sig.authorizationCorrectness with
      | some e => simp [h]
      | none => simp [h]
  · rw [if_pos hpp]
    simp [hpp]

end Anonym

namespace RangeProof

open GoFloat

/-- Claim C4, evaluation at the failing input. The prover's decomposition
computes its bound and digit weights with float64 `math.Pow`, not exact
integer arithmetic. At `Base = 3`, `Exponent = 34`,
`math.Pow(3, 34)` rounds DOWN to `3^34 − 1`, so for the in-range value
`v = 3^34 − 1 < Base^Exponent` the gate
`v >= int64(math.Pow(float64(Base), float64(Exponent)))` fires:
`computeMembershipWitness` refuses with the range error and produces no
digits at all — contradicting the claim that every `v ∈ [0, Base^Exponent)`
is decomposed into digits summing to `v`. -/
theorem claim_C4_decomposition_float_defect :
    ((16677181699666568 : Nat) < 3 ^ 34 ∧ goPow 3 34 = 3 ^ 34 - 1)
    ∧ computeMembershipWitness (r := bn256Order) 3 34 (List.range 3) 1 1
        (fun _ _ => 0) 0 [⟨"ABC", 16677181699666568, 0⟩] =
      .error .rangeViolation := by
  refine ⟨⟨by norm_num, goPow_3_34⟩, rfl⟩

/-- Claim C6, evaluation at the failing input. At `Base = 7`,
`Exponent = 19`, `math.Pow(7, 19)` rounds UP to `7^19 + 1`, so the witness
value `v = 7^19 ≥ Base^Exponent` passes the range gate instead of being
refused: `Prover.Prove` does NOT return the RangeViolation error — it goes
on to decompose `v`, produces the out-of-range digit 7, and dies on the
`p.Signatures[values[i]]` index panic (`goPanic` in the model). -/
theorem claim_C6_range_gate_bypassed :
    (goPow 7 19 = 7 ^ 19 + 1 ∧ (7 : Nat) ^ 19 ≥ 7 ^ 19)
    ∧ Prove (r := bn256Order) (fun _ => 0) (fun _ => 0)
        [⟨"ABC", 7 ^ 19, 0⟩] (List.range 7)
        { Token := [0], Base := 7, Exponent := 19, PedersenParams := [1, 1, 1]
          Q := 0, P := 0, PK := [] }
        ⟨fun _ _ => 0, 0, fun _ => 0, fun _ => 0, fun _ => 0⟩ =
      .error .goPanic := by
  refine ⟨⟨goPow_7_19, le_refl _⟩, rfl⟩

/-- Claim C1, counterexample. All premises of the claim hold at this
concrete instance — the witness value lies in `[0, Base^Exponent)`, the
token commitment opens to the witness under the Pedersen parameters, and a
membership signature exists for every digit value `0, 1, 2` — yet
`Prover.Prove` fails (for the sampled randomness shown, and the failure is
before any randomness is used): the range gate compares against
`int64(math.Pow(3, 34)) = 3^34 − 1`, so the in-range value `3^34 − 1` is
refused as out of range and no proof is produced. -/
theorem claim_C1_range_completeness_counterexample :
    (cexWitness.value < cexVerifier.Base ^ cexVerifier.Exponent
      ∧ cexVerifier.Token.getD 0 0 =
          cexHashType cexWitness.ttype * cexVerifier.PedersenParams.getD 0 0
            + (cexWitness.value : ZMod bn256Order) * cexVerifier.PedersenParams.getD 1 0
            + cexWitness.blindingFactor * cexVerifier.PedersenParams.getD 2 0
      ∧ (List.range cexVerifier.Base).length = cexVerifier.Base)
    ∧ Prove (fun _ => 0) cexHashType [cexWitness] (List.range cexVerifier.Base)
        cexVerifier ⟨fun _ _ => 0, 0, fun _ => 0, fun _ => 0, fun _ => 0⟩ =
      .error .rangeViolation := by
  refine ⟨⟨by norm_num [cexWitness, cexVerifier], rfl, by simp [cexVerifier]⟩, rfl⟩

theorem list_sum_map_add {α : Type} {M : Type} [AddCommMonoid M] (l : List α)
    (f g : α → M) :
    (l.map fun i => f i + g i).sum = (l.map f).sum + (l.map g).sum := by
  induction l with
  | nil => simp
  | cons a l ih => simp [ih]; exact add_add_add_comm _ _ _ _

theorem range_map_getD {β : Type} (n j : Nat) (f : Nat → β) (d : β) (hj : j < n) :
    ((List.range n).map f).getD j d = f j := by
  rw [List.getD_eq_getElem?_getD, List.getElem?_map]
  simp [List.getElem?_range hj]

theorem range_getD (n i d : Nat) (hi : i < n) : (List.range n).getD i d = i := by
  rw [List.getD_eq_getElem?_getD]
  simp [List.getElem?_range hi]

theorem map_getD_range {α β : Type} (l : List α) (d : α) (f : α → β) :
    (List.range l.length).map (fun k => f (l.getD k d)) = l.map f := by
  apply List.ext_getElem
  · simp
  · intro i h1 h2
    simp only [List.getElem_map, List.getElem_range]
    congr 1
    rw [List.getD_eq_getElem?_getD, List.getElem?_eq_getElem (by simpa using h2)]
    rfl

/-- All powers up to the exponent are float64-exact when `Base^Exponent`
is. -/
theorem goPow_exact_le {B E : Nat} (hB : B ≠ 0) (hexact : B ^ E < 2 ^ 53) :
    ∀ i, i ≤ E → goPow B i = B ^ i := by
  intro i hi
  apply goPow_exact (Nat.one_le_iff_ne_zero.mpr hB)
  calc B ^ i ≤ B ^ E := Nat.pow_le_pow_right (Nat.one_le_iff_ne_zero.mpr hB) hi
    _ < 2 ^ 53 := hexact

/-- `computeMembershipWitness` succeeds on in-range witnesses in the
float64-exact regime, and each entry is the corresponding `memEntry`. -/
theorem computeMembershipWitness_ok {r : Nat} (B E : Nat) (signatures : List Nat)
    (pp0 pp1 : ZMod r) (digitBF : Nat → Nat → ZMod r)
    (hsl : signatures.length = B) (hB : B ≠ 0) (hE : E ≠ 0)
    (hexact : B ^ E < 2 ^ 53) :
    ∀ tws k₀, (∀ w ∈ tws, w.value < B ^ E) →
    ∃ mem, computeMembershipWitness B E signatures pp0 pp1 digitBF k₀ tws = .ok mem
      ∧ mem.length = tws.length
      ∧ ∀ j, j < tws.length →
          mem.getD j (MemberData.empty r) =
            memEntry B E signatures pp0 pp1 digitBF (k₀ + j)
              (tws.getD j (TokenDataWitness.empty r)) := by
  intro tws
  induction tws with
  | nil =>
    intro k₀ _
    exact ⟨[], rfl, rfl, fun j hj => by simp at hj⟩
  | cons w rest ih =>
    intro k₀ hrange
    have hw : w.value < B ^ E := hrange w (by simp)
    have hgate : ¬ goPow B E ≤ w.value := by
      rw [goPow_exact_le hB hexact E le_rfl]
      omega
    have hdigits : goDigits B E w.value = (List.range E).map fun i =>
        w.value / B ^ i % B :=
      goDigits_eq B E w.value (Nat.one_le_iff_ne_zero.mpr hB)
        (Nat.one_le_iff_ne_zero.mpr hE) hw
        (fun i hi => goPow_exact_le hB hexact i (by omega))
    have hall : (goDigits B E w.value).all (· < signatures.length) = true := by
      rw [hdigits, List.all_eq_true]
      intro x hx
      rw [List.mem_map] at hx
      obtain ⟨i, _, hxi⟩ := hx
      subst hxi
      simpa [hsl] using digit_lt B (Nat.one_le_iff_ne_zero.mpr hB) w.value i
    obtain ⟨tail, htail, htlen, htget⟩ := ih (k₀ + 1) fun x hx => hrange x (by simp [hx])
    refine ⟨memEntry B E signatures pp0 pp1 digitBF k₀ w :: tail, ?_, by simp [htlen], ?_⟩
    · unfold computeMembershipWitness
      rw [if_neg hgate, if_neg (by simp [hall]), htail]
    · intro j hj
      match j with
      | 0 => simp
      | j + 1 =>
        simp only [List.getD_cons_succ, List.length_cons] at hj ⊢
        rw [htget j (by omega)]
        congr 1
        omega

/-- The verifier's weighted sum of honest digit commitments equals the
value-and-blinding opening: `Σ B^i·(d_i·pp0 + bf_i·pp1) =
v·pp0 + (Σ bf_i·B^i)·pp1`. -/
theorem weighted_digit_sum {r : Nat} (B E v : Nat) (pp0 pp1 : ZMod r)
    (bf : Nat → ZMod r) (hB : B ≠ 0) (hv : v < B ^ E)
    (hex : ∀ i, i < E → goPow B i = B ^ i) :
    ((List.range E).map fun i =>
        ((goPow B i : Nat) : ZMod r) *
          (((v / B ^ i % B : Nat) : ZMod r) * pp0 + bf i * pp1)).sum
      = (v : ZMod r) * pp0
        + ((List.range E).map fun i => bf i * ((goPow B i : Nat) : ZMod r)).sum * pp1 := by
  have hsplit : ((List.range E).map fun i =>
      ((goPow B i : Nat) : ZMod r) *
        (((v / B ^ i % B : Nat) : ZMod r) * pp0 + bf i * pp1)).sum
      = ((List.range E).map fun i =>
          (((v / B ^ i % B * B ^ i : Nat) : ZMod r)) * pp0).sum
        + ((List.range E).map fun i =>
          (bf i * ((goPow B i : Nat) : ZMod r)) * pp1).sum := by
    rw [← list_sum_map_add]
    refine congrArg List.sum (List.map_congr_left ?_)
    intro i hi
    rw [hex i (List.mem_range.mp hi)]
    push_cast
    ring
  rw [hsplit, List.sum_map_mul_right, List.sum_map_mul_right]
  congr 1
  congr 1
  have hcomp : (List.map (fun i => ((v / B ^ i % B * B ^ i : Nat) : ZMod r))
      (List.range E)) =
      List.map Nat.cast (List.map (fun i => v / B ^ i % B * B ^ i) (List.range E)) := by
    rw [List.map_map]
    rfl
  rw [hcomp, ← Nat.cast_list_sum, digit_sum_eq B (Nat.one_le_iff_ne_zero.mpr hB) E v hv]

/-- The explicit value of `Prover.Prove` on the success path: guards
passed, `computeMembershipWitness` returned `mem`, and the proof fields
are as assembled in part_000 lines 100-146 (with `c` the Fiat-Shamir
challenge over the prover's transcript). -/
theorem Prove_ok {r : Nat} (hash : ChallengeIn r → ZMod r)
    (hashType : String → ZMod r) (tw : List (TokenDataWitness r))
    (signatures : List Nat) (v : Verifier r) (rand : ProveRandom r)
    (mem : List (MemberData r)) (c : ZMod r)
    (hguard : ¬(v.Exponent = 0 ∨ signatures.length = 0 ∨ v.PedersenParams.length < 3
      ∨ tw.length < v.Token.length ∨ tw.length = 0))
    (hmem : computeMembershipWitness signatures.length v.Exponent signatures
      (v.PedersenParams.getD 0 0) (v.PedersenParams.getD 1 0) rand.digitBF 0 tw
      = .ok mem)
    (hc : c = hash ⟨v.P, v.Token,
      (List.range v.Token.length).map fun i =>
        v.PedersenParams.getD 0 0 * rand.rType + v.PedersenParams.getD 1 0 * rand.rValue i
          + v.PedersenParams.getD 2 0 * rand.rTokenBF i,
      (List.range v.Token.length).map fun i =>
        v.PedersenParams.getD 0 0 * rand.rValue i + v.PedersenParams.getD 1 0 * rand.rComBF i,
      v.PedersenParams, v.Q, v.PK, mem.map (·.coms)⟩) :
    Prove hash hashType tw signatures v rand = .ok
      { challenge := c
        equalityProofs :=
          { typeResp := c * hashType ((tw.getD 0 (TokenDataWitness.empty r)).ttype)
              + rand.rType
            value := (List.range v.Token.length).map fun k =>
              rand.rValue k + c * ((tw.getD k (TokenDataWitness.empty r)).value : ZMod r)
            tokenBlindingFactor := (List.range v.Token.length).map fun k =>
              rand.rTokenBF k + c * (tw.getD k (TokenDataWitness.empty r)).blindingFactor
            commitmentBlindingFactor := (List.range v.Token.length).map fun k =>
              rand.rComBF k + c * (mem.getD k (MemberData.empty r)).comBF }
        membershipProofs := (List.range v.Token.length).map fun k =>
          { commitments := (mem.getD k (MemberData.empty r)).coms
            signatureProofs := (mem.getD k (MemberData.empty r)).proofs } } := by
  subst hc
  unfold Prove
  rw [if_neg hguard, hmem]

theorem getD_mem {α : Type} (l : List α) (k : Nat) (d : α) (h : k < l.length) :
    l.getD k d ∈ l := by
  rw [List.getD_eq_getElem l d h]
  exact List.getElem_mem h

/-- `Verify` reduces to the transcript-challenge comparison once the length
and membership checks pass. -/
theorem Verify_eq {r : Nat} (hash : ChallengeIn r → ZMod r) (v : Verifier r)
    (p : Proof r)
    (h1 : p.membershipProofs.length = v.Token.length)
    (h2 : (p.membershipProofs.all fun mp =>
      mp.commitments.length = mp.signatureProofs.length) = true)
    (h3 : (p.membershipProofs.all fun mp =>
      (mp.commitments.zip mp.signatureProofs).all fun ci =>
        membershipVerify (v.PedersenParams.getD 0 0) (v.PedersenParams.getD 1 0)
          ci.1 ci.2) = true) :
    Verify hash v p =
      decide (hash ⟨v.P, v.Token, (recomputeCommitments v p).token,
        (recomputeCommitments v p).commitmentToValue,
        v.PedersenParams, v.Q, v.PK, p.membershipProofs.map (·.commitments)⟩
        = p.challenge) := by
  unfold Verify
  rw [if_neg (not_not_intro h1), if_neg (not_not_intro h2), if_neg (not_not_intro h3)]

/-- Claim C1, as amended: range-proof completeness (round trip) in the
float64-exact regime. For every list of token data witnesses of one shared
type whose values lie in `[0, Base^Exponent)`, with token commitments
opening to those witnesses under the three Pedersen parameters, a
pre-issued membership signature for every digit value (the table
`List.range Base`), at least one token, matching witness/token counts,
`Exponent ≥ 1`, and `Base^Exponent < 2^53` — so that every
`int64(math.Pow(Base, i))` the prover computes is exact —
`Prover.Prove` succeeds and `Verifier.Verify` accepts the produced proof,
for every choice of the randomness sampled during proving and every
transcript-hash and type-hash function. -/
theorem claim_C1_range_completeness {r : Nat}
    (hash : ChallengeIn r → ZMod r) (hashType : String → ZMod r)
    (tw : List (TokenDataWitness r)) (v : Verifier r) (rand : ProveRandom r)
    (hn : tw.length = v.Token.length) (hn1 : v.Token.length ≠ 0)
    (hpp : v.PedersenParams.length = 3)
    (hE : v.Exponent ≠ 0) (hB : v.Base ≠ 0)
    (hexact : v.Base ^ v.Exponent < 2 ^ 53)
    (hrange : ∀ w ∈ tw, w.value < v.Base ^ v.Exponent)
    (htype : ∀ w ∈ tw, w.ttype = (tw.getD 0 (TokenDataWitness.empty r)).ttype)
    (hopen : ∀ k, k < tw.length →
      v.Token.getD k 0 =
        hashType (tw.getD k (TokenDataWitness.empty r)).ttype * v.PedersenParams.getD 0 0
          + ((tw.getD k (TokenDataWitness.empty r)).value : ZMod r) * v.PedersenParams.getD 1 0
          + (tw.getD k (TokenDataWitness.empty r)).blindingFactor * v.PedersenParams.getD 2 0) :
    ∃ pf, Prove hash hashType tw (List.range v.Base) v rand = .ok pf
      ∧ Verify hash v pf = true := by
  have hB1 : 1 ≤ v.Base := Nat.one_le_iff_ne_zero.mpr hB
  have hsl : (List.range v.Base).length = v.Base := List.length_range _
  obtain ⟨mem, hmem0, hmemlen, hmemget0⟩ :=
    computeMembershipWitness_ok v.Base v.Exponent (List.range v.Base)
      (v.PedersenParams.getD 0 0) (v.PedersenParams.getD 1 0) rand.digitBF
      hsl hB hE hexact tw 0 hrange
  have hmem : computeMembershipWitness (List.range v.Base).length v.Exponent
      (List.range v.Base) (v.PedersenParams.getD 0 0) (v.PedersenParams.getD 1 0)
      rand.digitBF 0 tw = .ok mem := by
    rw [hsl]; exact hmem0
  have hmemget : ∀ j, j < tw.length →
      mem.getD j (MemberData.empty r) =
        memEntry v.Base v.Exponent (List.range v.Base)
          (v.PedersenParams.getD 0 0) (v.PedersenParams.getD 1 0) rand.digitBF j
          (tw.getD j (TokenDataWitness.empty r)) := by
    intro j hj
    simpa using hmemget0 j hj
  have hguard : ¬(v.Exponent = 0 ∨ (List.range v.Base).length = 0
      ∨ v.PedersenParams.length < 3 ∨ tw.length < v.Token.length ∨ tw.length = 0) := by
    push_neg
    exact ⟨hE, by simpa [hsl] using hB, by omega, by omega, by omega⟩
  -- the digits of witness k
  have hdigits : ∀ k, k < tw.length →
      goDigits v.Base v.Exponent (tw.getD k (TokenDataWitness.empty r)).value =
        (List.range v.Exponent).map fun i =>
          (tw.getD k (TokenDataWitness.empty r)).value / v.Base ^ i % v.Base := by
    intro k hk
    exact goDigits_eq v.Base v.Exponent _ hB1 (Nat.one_le_iff_ne_zero.mpr hE)
      (hrange _ (getD_mem _ _ _ (by omega)))
      (fun i hi => goPow_exact_le hB hexact i (by omega))
  refine ⟨_, Prove_ok hash hashType tw (List.range v.Base) v rand mem _ hguard hmem rfl, ?_⟩
  -- the three Verify side conditions
  have hlen1 : (((List.range v.Token.length).map fun k =>
      ({ commitments := (mem.getD k (MemberData.empty r)).coms
         signatureProofs := (mem.getD k (MemberData.empty r)).proofs } :
        MembershipProof r)).length) = v.Token.length := by simp
  have hmp : ∀ k, k < v.Token.length →
      (mem.getD k (MemberData.empty r)).coms =
        ((List.range v.Exponent).map fun i =>
          (((tw.getD k (TokenDataWitness.empty r)).value / v.Base ^ i % v.Base : Nat) : ZMod r)
            * v.PedersenParams.getD 0 0 + rand.digitBF k i * v.PedersenParams.getD 1 0)
      ∧ (mem.getD k (MemberData.empty r)).proofs =
        ((List.range v.Exponent).map fun i =>
          (⟨(tw.getD k (TokenDataWitness.empty r)).value / v.Base ^ i % v.Base,
            (tw.getD k (TokenDataWitness.empty r)).value / v.Base ^ i % v.Base,
            rand.digitBF k i⟩ : MembershipProofBytes r))
      ∧ (mem.getD k (MemberData.empty r)).comBF =
        ((List.range v.Exponent).map fun i =>
          rand.digitBF k i * ((goPow v.Base i : Nat) : ZMod r)).sum := by
    intro k hk
    rw [hmemget k (by omega)]
    unfold memEntry
    rw [hdigits k (by omega)]
    refine ⟨?_, ?_, rfl⟩
    · apply List.map_congr_left
      intro i hi
      rw [range_map_getD _ _ _ _ (List.mem_range.mp hi)]
    · apply List.map_congr_left
      intro i hi
      rw [range_map_getD _ _ _ _ (List.mem_range.mp hi)]
      have hd : (tw.getD k (TokenDataWitness.empty r)).value / v.Base ^ i % v.Base
          < v.Base := digit_lt v.Base hB1 _ i
      rw [range_getD _ _ _ hd]
  have h2 : ((((List.range v.Token.length).map fun k =>
      ({ commitments := (mem.getD k (MemberData.empty r)).coms
         signatureProofs := (mem.getD k (MemberData.empty r)).proofs } :
        MembershipProof r))).all fun mp =>
      mp.commitments.length = mp.signatureProofs.length) = true := by
    rw [List.all_eq_true]
    intro mp hmp'
    rw [List.mem_map] at hmp'
    obtain ⟨k, hk, rfl⟩ := hmp'
    rw [List.mem_range] at hk
    obtain ⟨hc1, hc2, _⟩ := hmp k hk
    refine decide_eq_true ?_
    rw [hc1, hc2]
    simp
  have h3 : ((((List.range v.Token.length).map fun k =>
      ({ commitments := (mem.getD k (MemberData.empty r)).coms
         signatureProofs := (mem.getD k (MemberData.empty r)).proofs } :
        MembershipProof r))).all fun mp =>
      (mp.commitments.zip mp.signatureProofs).all fun ci =>
        membershipVerify (v.PedersenParams.getD 0 0) (v.PedersenParams.getD 1 0)
          ci.1 ci.2) = true := by
    rw [List.all_eq_true]
    intro mp hmp'
    rw [List.mem_map] at hmp'
    obtain ⟨k, hk, rfl⟩ := hmp'
    rw [List.mem_range] at hk
    obtain ⟨hc1, hc2, _⟩ := hmp k hk
    simp only [hc1, hc2]
    rw [List.zip_map', List.all_eq_true]
    intro ci hci
    rw [List.mem_map] at hci
    obtain ⟨i, _, rfl⟩ := hci
    unfold membershipVerify
    exact decide_eq_true ⟨rfl, rfl⟩
  rw [Verify_eq hash v _ hlen1 h2 h3]
  apply decide_eq_true
  unfold recomputeCommitments
  congr 1
  congr 1
  · -- recomputed token commitments
    apply List.map_congr_left
    intro j hj
    rw [List.mem_range] at hj
    rw [range_map_getD _ _ _ _ hj, range_map_getD _ _ _ _ hj,
      hopen j (by omega), htype (tw.getD j (TokenDataWitness.empty r))
        (getD_mem _ _ _ (by omega))]
    ring
  · -- recomputed value commitments
    apply List.map_congr_left
    intro j hj
    rw [List.mem_range] at hj
    obtain ⟨hc1, _, hc3⟩ := hmp j hj
    rw [range_map_getD _ _ _ _ hj, range_map_getD _ _ _ _ hj,
      range_map_getD _ _ _ _ hj]
    simp only [hc1]
    have hwsum := weighted_digit_sum v.Base v.Exponent
      (tw.getD j (TokenDataWitness.empty r)).value
      (v.PedersenParams.getD 0 0) (v.PedersenParams.getD 1 0)
      (rand.digitBF j) hB (hrange _ (getD_mem _ _ _ (by omega)))
      (fun i hi => goPow_exact_le hB hexact i (by omega))
    have hcoms : ((List.range v.Exponent).map fun i =>
        ((goPow v.Base i : Nat) : ZMod r) *
          (((List.range v.Exponent).map fun i =>
            (((tw.getD j (TokenDataWitness.empty r)).value / v.Base ^ i % v.Base : Nat) : ZMod r)
              * v.PedersenParams.getD 0 0
              + rand.digitBF j i * v.PedersenParams.getD 1 0).getD i 0)).sum
        = ((List.range v.Exponent).map fun i =>
          ((goPow v.Base i : Nat) : ZMod r) *
            ((((tw.getD j (TokenDataWitness.empty r)).value / v.Base ^ i % v.Base : Nat) : ZMod r)
              * v.PedersenParams.getD 0 0
              + rand.digitBF j i * v.PedersenParams.getD 1 0)).sum := by
      refine congrArg List.sum (List.map_congr_left ?_)
      intro i hi
      rw [range_map_getD _ _ _ _ (List.mem_range.mp hi)]
    rw [hcoms, hwsum, hc3]
    ring
  · -- the digit-commitment vectors hashed by both sides coincide
    have hlenmem : mem.length = v.Token.length := by omega
    calc (((List.range v.Token.length).map fun k =>
          ({ commitments := (mem.getD k (MemberData.empty r)).coms
             signatureProofs := (mem.getD k (MemberData.empty r)).proofs } :
            MembershipProof r)).map fun mp => mp.commitments)
        = (List.range v.Token.length).map
            (fun k => (mem.getD k (MemberData.empty r)).coms) := by
          rw [List.map_map]
          rfl
      _ = (List.range mem.length).map
            (fun k => (mem.getD k (MemberData.empty r)).coms) := by rw [hlenmem]
      _ = mem.map (·.coms) :=
          map_getD_range mem (MemberData.empty r) (fun m => m.coms)

theorem claim_C1_range_completeness_witness :
    ∃ pf, Prove (fun _ => 2) (fun _ => 13) sampleRangeWitnesses (List.range 2)
        sampleRangeVerifier sampleRangeRandom = .ok pf
      ∧ Verify (fun _ => 2) sampleRangeVerifier pf = true :=
  claim_C1_range_completeness (fun _ => 2) (fun _ => 13) sampleRangeWitnesses
    sampleRangeVerifier sampleRangeRandom
    (by decide) (by decide) (by decide) (by decide) (by decide) (by decide)
    (by decide) (by decide) (by decide)

end RangeProof
